import Mathlib

/-!
# A shallow embedding of the Lazy K interpreter (`src/lazy.cpp`)

This file models the graph-reduction evaluator of the Lazy K interpreter:
the tagged expression cells, the two-arena heap with a Cheney-style copying
collector, the root table, the Church-character cache, the iterative
reducer `partial_eval` / `partial_eval_primitive_application`, the parser's
Church-numeral-literal loop, and the I/O driver loop of `main`.

Machine pointers are modelled by an inductive `Ptr` (null, a static atom,
or a heap cell addressed by a space identifier and a cell index); each of
the two arenas is a binary trie of cells; the `arg1`/`numeric_arg1` union
of `struct Expr` is an inductive `Arg`.  Loops and recursion are fueled:
running out of fuel is the distinguished error `Err.noFuel`, reading
unallocated or null memory is `Err.ub`, `exit(n)` is `Err.exited n msg`,
and `abort()` is `Err.aborted`.  Signed 32-bit `int` arithmetic is modelled
on `Int` with an explicit wrap `wrap32` at each store.
-/

namespace LazyK

/-- The `Type` enum of `lazy.cpp` (line 92): cell tags. -/
inductive Tag where
  | A | K | K1 | S | S1 | S2 | I | I1 | LazyRead | Inc | Num | Free
deriving DecidableEq, Repr

/-- The statically allocated cells of `lazy.cpp` (lines 190-203), which live
outside the arenas and are never relocated. -/
inductive AtomId where
  | cK | cS | cI | KI | SI | KS | KK | SKSK | SIKS | Iota | cInc | cZero
deriving DecidableEq, Repr

/-- A machine pointer: null, the address of a static atom, or the address of
an arena cell (`sp` identifies which of the two arenas, `i` the cell index). -/
inductive Ptr where
  | null : Ptr
  | atom : AtomId → Ptr
  | heap : Bool → Nat → Ptr
deriving DecidableEq, Repr

/-- The `union { Expr* arg1; int numeric_arg1; }` of `struct Expr`. -/
inductive Arg where
  | ptr : Ptr → Arg
  | num : Int → Arg
deriving DecidableEq, Repr

/-- One expression cell (`struct Expr`, lines 94-126): a forwarding pointer
(0 outside of GC, modelled as `Option`), the `arg1`/numeric union, `arg2`,
and the tag. -/
structure Cell where
  forward : Option Ptr
  arg1 : Arg
  arg2 : Ptr
  tag : Tag
deriving DecidableEq, Repr

/-- A binary trie of cells indexed by `Nat`, modelling one arena. -/
inductive HTree where
  | leaf : HTree
  | node : HTree → Option Cell → HTree → HTree
deriving DecidableEq

/-- Little-endian binary digits of `n`, computed with `n` itself as
structural fuel so that the kernel can evaluate it. -/
def bitsAux : Nat → Nat → List Bool
  | 0, _ => []
  | f+1, n => if n = 0 then [] else decide (n % 2 = 1) :: bitsAux f (n / 2)

/-- Binary digit string used to address a trie slot. -/
def bits (n : Nat) : List Bool := bitsAux n n

theorem bitsAux_zero : ∀ f, bitsAux f 0 = [] := by
  intro f; cases f <;> rfl

theorem bitsAux_congr : ∀ f f' n, n ≤ f → n ≤ f' → bitsAux f n = bitsAux f' n := by
  intro f
  induction f with
  | zero => intro f' n h _; interval_cases n; rw [bitsAux_zero, bitsAux_zero]
  | succ f ih =>
    intro f' n h h'
    rcases Nat.eq_zero_or_pos n with h0 | h0
    · subst h0; rw [bitsAux_zero, bitsAux_zero]
    · obtain ⟨g, rfl⟩ : ∃ g, f' = g + 1 := ⟨f' - 1, by omega⟩
      rw [bitsAux, bitsAux, if_neg (by omega), if_neg (by omega)]
      rw [ih g (n / 2) (by omega) (by omega)]

theorem bits_pos {n : Nat} (h : 0 < n) :
    bits n = decide (n % 2 = 1) :: bits (n / 2) := by
  obtain ⟨f, rfl⟩ : ∃ f, n = f + 1 := ⟨n - 1, by omega⟩
  rw [bits, bitsAux, if_neg (by omega), bits]
  rw [bitsAux_congr f ((f+1)/2) ((f+1)/2) (by omega) (by omega)]

theorem bits_injective : ∀ n m, bits n = bits m → n = m := by
  intro n
  induction n using Nat.strong_induction_on with
  | _ n ih =>
    intro m h
    rcases Nat.eq_zero_or_pos n with h0 | h0 <;> rcases Nat.eq_zero_or_pos m with h1 | h1
    · omega
    · subst h0; rw [bits_pos h1] at h; exact List.noConfusion h
    · subst h1; rw [bits_pos h0] at h; exact List.noConfusion h
    · rw [bits_pos h0, bits_pos h1] at h
      have h2 := List.head_eq_of_cons_eq h
      have h3 := List.tail_eq_of_cons_eq h
      have h4 : n / 2 = m / 2 := ih (n / 2) (by omega) _ h3
      have h5 : n % 2 = m % 2 := by
        by_contra hne
        rcases Nat.mod_two_eq_zero_or_one n with e1 | e1 <;>
          rcases Nat.mod_two_eq_zero_or_one m with e2 | e2 <;>
          rw [e1, e2] at h2 hne <;> simp at h2 hne
      omega

namespace HTree

/-- Read the slot addressed by a digit string. -/
def getB : HTree → List Bool → Option Cell
  | .leaf, _ => none
  | .node _ v _, [] => v
  | .node l _ r, b :: bs => if b then getB l bs else getB r bs

/-- Write the slot addressed by a digit string. -/
def setB : HTree → List Bool → Cell → HTree
  | .leaf, [], c => .node .leaf (some c) .leaf
  | .node l _ r, [], c => .node l (some c) r
  | .leaf, b :: bs, c =>
    if b then .node (setB .leaf bs c) none .leaf else .node .leaf none (setB .leaf bs c)
  | .node l v r, b :: bs, c =>
    if b then .node (setB l bs c) v r else .node l v (setB r bs c)

/-- Read the cell stored at index `n`, if any. -/
def get (t : HTree) (n : Nat) : Option Cell := t.getB (bits n)

/-- Store a cell at index `n`. -/
def set (t : HTree) (n : Nat) (c : Cell) : HTree := t.setB (bits n) c

theorem getB_leaf (bs : List Bool) : HTree.leaf.getB bs = none := by cases bs <;> rfl

theorem getB_setB_self : ∀ (bs : List Bool) (t : HTree) (c : Cell),
    (t.setB bs c).getB bs = some c := by
  intro bs
  induction bs with
  | nil => intro t c; cases t <;> rfl
  | cons b bs ih =>
    intro t c
    cases t <;> rw [setB] <;> cases b <;> simp only [if_true, if_false, Bool.false_eq_true] <;>
      rw [getB] <;> simp only [if_true, if_false, Bool.false_eq_true] <;> exact ih _ _

theorem getB_setB_ne : ∀ (bs cs : List Bool) (t : HTree) (c : Cell), bs ≠ cs →
    (t.setB bs c).getB cs = t.getB cs := by
  intro bs
  induction bs with
  | nil =>
    intro cs t c h
    match cs, t with
    | [], _ => exact absurd rfl h
    | d :: ds, .leaf => cases d <;> simp [setB, getB]
    | d :: ds, .node l v r => cases d <;> simp [setB, getB]
  | cons b bs ih =>
    intro cs t c h
    match cs, t with
    | [], .leaf => cases b <;> simp [setB, getB]
    | [], .node l v r => cases b <;> simp [setB, getB]
    | d :: ds, .leaf =>
      cases b <;> cases d <;> simp [setB, getB] <;>
        rw [ih ds .leaf c (by simpa using h)] <;> simp [getB]
    | d :: ds, .node l v r =>
      cases b <;> cases d <;> simp [setB, getB]
      · exact ih ds r c (by simpa using h)
      · exact ih ds l c (by simpa using h)

theorem get_set_self (t : HTree) (n : Nat) (c : Cell) : (t.set n c).get n = some c :=
  getB_setB_self _ _ _

theorem get_set_ne (t : HTree) (n m : Nat) (c : Cell) (h : n ≠ m) :
    (t.set n c).get m = t.get m :=
  getB_setB_ne _ _ _ _ (fun hc => h (bits_injective n m hc))

theorem get_leaf (m : Nat) : HTree.leaf.get m = none := getB_leaf _

end HTree

/-- The run-time error/exit outcomes of the interpreter.  `exited n msg`
models `exit(n)` after printing `msg` to stderr, `aborted` models `abort()`,
`noFuel` is exhaustion of the model's fuel, and `ub` is a read through a
null or unallocated pointer (undefined behaviour in the C program). -/
inductive Err where
  | exited : Int → String → Err
  | aborted : Err
  | noFuel : Err
  | ub : Err
deriving DecidableEq, Repr

/-- Result monad for the machine. -/
abbrev Res (α : Type) : Type := Except Err α

instance {ε α : Type} [DecidableEq ε] [DecidableEq α] : DecidableEq (Except ε α)
  | .ok a, .ok b =>
    if h : a = b then .isTrue (by rw [h]) else .isFalse (fun hc => h (by cases hc; rfl))
  | .error a, .error b =>
    if h : a = b then .isTrue (by rw [h]) else .isFalse (fun hc => h (by cases hc; rfl))
  | .ok _, .error _ => .isFalse (fun hc => Except.noConfusion hc)
  | .error _, .ok _ => .isFalse (fun hc => Except.noConfusion hc)

/-- The whole mutable state of the interpreter process: which arena is the
current from-space, the two arenas, the bump-allocation index, the two named
root slots (`roots[0]`, `roots[1]`), the root stack (`roots[2..]`, head =
top), the Church-character cache `cached_church_chars`, and the standard
input/output byte streams. -/
structure State where
  fromSp : Bool
  heap1 : HTree
  heap2 : HTree
  nextAlloc : Nat
  rootTop : Ptr
  rootC2I : Ptr
  rootStack : List Ptr
  ccc : List Ptr
  stdin : List Int
  stdout : List Int
deriving DecidableEq

/-- `HEAP_SIZE / sizeof(Expr)`: the number of cells in one arena
(`HEAP_SIZE = 64 MB`, `sizeof(Expr) = 32` on the LP64 targets the source is
written for). -/
def heapCapacity : Nat := 2097152

/-- The contents of the statically allocated cells (lines 190-203):
`cK(K)`, `cS(S)`, `cI(I)`, `KI = K1(cI)`, `SI = S1(cI)`, `KS = K1(cS)`,
`KK = K1(cK)`, `SKSK = S2(KS, cK)`, `SIKS = S2(cI, KS)`,
`Iota = S2(SIKS, KK)`, `cInc(Inc)`, `cZero(Num)` (whose `arg1` union member
is the all-zero bit pattern, i.e. numeric 0). -/
def atomCell : AtomId → Cell
  | .cK => ⟨none, .ptr .null, .null, .K⟩
  | .cS => ⟨none, .ptr .null, .null, .S⟩
  | .cI => ⟨none, .ptr .null, .null, .I⟩
  | .KI => ⟨none, .ptr (.atom .cI), .null, .K1⟩
  | .SI => ⟨none, .ptr (.atom .cI), .null, .S1⟩
  | .KS => ⟨none, .ptr (.atom .cS), .null, .K1⟩
  | .KK => ⟨none, .ptr (.atom .cK), .null, .K1⟩
  | .SKSK => ⟨none, .ptr (.atom .KS), .atom .cK, .S2⟩
  | .SIKS => ⟨none, .ptr (.atom .cI), .atom .KS, .S2⟩
  | .Iota => ⟨none, .ptr (.atom .SIKS), .atom .KK, .S2⟩
  | .cInc => ⟨none, .ptr .null, .null, .Inc⟩
  | .cZero => ⟨none, .num 0, .null, .Num⟩

/-- The arena identified by `sp`. -/
def State.space (σ : State) (sp : Bool) : HTree := if sp then σ.heap1 else σ.heap2

/-- Replace the arena identified by `sp`. -/
def State.setSpace (σ : State) (sp : Bool) (t : HTree) : State :=
  if sp then { σ with heap1 := t } else { σ with heap2 := t }

/-- Dereference a pointer: a static atom reads its (immutable in any
reachable execution) static cell, a heap pointer reads the addressed arena
slot, and null yields nothing. -/
def getCell (σ : State) : Ptr → Option Cell
  | .null => none
  | .atom a => some (atomCell a)
  | .heap sp i => (σ.space sp).get i

/-- Write through a heap pointer (writes through null or atom pointers do
not occur on any path whose tag guards have passed; they leave the state
unchanged here). -/
def setCell (σ : State) (p : Ptr) (c : Cell) : State :=
  match p with
  | .heap sp i => σ.setSpace sp ((σ.space sp).set i c)
  | _ => σ

/-- `new Expr(...)` (line 103-117): bump-allocate one cell in the active
arena and initialize it.  As in the source, `new` itself performs no
exhaustion check; the caller must have called `check`/`check_rooted`. -/
def allocCell (σ : State) (c : Cell) : State × Ptr :=
  let p := Ptr.heap σ.fromSp σ.nextAlloc
  ({ setCell σ p c with nextAlloc := σ.nextAlloc + 1 }, p)

/-- Read the pointer member of the `arg1` union; reading a numeric payload
as a pointer is undefined behaviour. -/
def argPtr : Arg → Res Ptr
  | .ptr p => .ok p
  | .num _ => .error .ub

/-- Wrap to the value range of a 32-bit signed `int`. -/
def wrap32 (n : Int) : Int := (n + 2147483648) % 4294967296 - 2147483648

/-- `Expr::to_number` (lines 119-122): the numeric payload if the tag is
`Num`, and `-1` otherwise.  (A `Num` whose union member was last written as
a pointer reinterprets those bits; this situation is unreachable, and the
model returns the bit pattern of the only pointer ever stored in a fresh
`Num`-tagged atom, zero.) -/
def toNumber (c : Cell) : Int :=
  if c.tag = .Num then (match c.arg1 with | .num m => m | .ptr _ => 0) else -1

/-- `getchar()`: consume one byte of standard input, or return `EOF` (-1). -/
def getchar (σ : State) : Int × State :=
  match σ.stdin with
  | [] => (-1, σ)
  | b :: rest => (b, { σ with stdin := rest })

/-- `in_arena` (lines 219-221): does a pointer land inside the current
from-space address range? -/
def in_arena (σ : State) : Ptr → Bool
  | .heap sp i => sp = σ.fromSp && i < heapCapacity
  | _ => false

/-- `is_exhausted(n)` (lines 282-284): would `n` more bump allocations
overrun the active arena? -/
def is_exhausted (σ : State) (n : Nat) : Bool := heapCapacity ≤ σ.nextAlloc + n

/-- `root(e)` (lines 300-302): push a pointer on the root stack. -/
def root (σ : State) (e : Ptr) : State := { σ with rootStack := e :: σ.rootStack }

/-- `unroot()` (lines 303-305): pop the root stack.  (The pop of an empty
stack would read below `roots[2]` in the C program; it never happens because
every pop follows a matching push.) -/
def unroot (σ : State) : State × Ptr :=
  match σ.rootStack with
  | [] => (σ, .null)
  | e :: rest => ({ σ with rootStack := rest }, e)

/-- Element `i` of the Church-character cache. -/
def cccGet (σ : State) (i : Nat) : Ptr := σ.ccc.getD i .null

/-- The state carried through a collection: the process state (whose
from-space receives forwarding-pointer writes and whose root slots are being
rewritten), the destination arena being filled, the destination allocation
index, and the work stack of destination indices still to be scanned (the
stack carved out of the top of to-space in the C program, head = top). -/
structure GcSt where
  base : State
  dest : HTree
  dnext : Nat
  work : List Nat
deriving DecidableEq

/-- `copy_object` (lines 230-246): pointers outside the arena (atoms, null,
stale to-space pointers) are returned unchanged; an already-forwarded cell
yields its forwarding pointer; otherwise the cell is copied to the
destination frontier, pushed on the work stack, forwarded, and the new
address returned. -/
def copy_object (g : GcSt) (p : Ptr) : Res (GcSt × Ptr) :=
  if in_arena g.base p then
    match getCell g.base p with
    | none => .error .ub
    | some c =>
      match c.forward with
      | some q => .ok (g, q)
      | none =>
        let q := Ptr.heap (!g.base.fromSp) g.dnext
        .ok ({ base := setCell g.base p { c with forward := some q }
             , dest := g.dest.set g.dnext c
             , dnext := g.dnext + 1
             , work := g.dnext :: g.work }, q)
  else .ok (g, p)

/-- Forward every pointer of a list in order (used for the root stack,
bottom slot first, and for the Church-character cache). -/
def copyPtrList (g : GcSt) : List Ptr → Res (GcSt × List Ptr)
  | [] => .ok (g, [])
  | p :: rest => do
    let (g, q) ← copy_object g p
    let (g, qs) ← copyPtrList g rest
    .ok (g, q :: qs)

/-- The scan loop of `gc` (lines 263-271): pop a copied cell; unless its tag
is `Num`, forward its `arg1` and `arg2`. -/
def gcDrain : Nat → GcSt → Res GcSt
  | 0, _ => .error .noFuel
  | f+1, g =>
    match g.work with
    | [] => .ok g
    | j :: rest =>
      let g := { g with work := rest }
      match g.dest.get j with
      | none => .error .ub
      | some c =>
        if c.tag = .Num then gcDrain f g
        else do
          let pa ← argPtr c.arg1
          let (g, a1) ← copy_object g pa
          let g := { g with dest := g.dest.set j { c with arg1 := .ptr a1 } }
          let (g, a2) ← copy_object g c.arg2
          let g := { g with dest := g.dest.set j { c with arg1 := .ptr a1, arg2 := a2 } }
          gcDrain f g

/-- `gc()` (lines 248-280): flip the allocation frontier into to-space,
forward the root-table slots (`roots[0]`, `roots[1]`, then the stack from
its bottom) and the Church-character cache, drain the work stack, and swap
the two arenas. -/
def gcRun (f : Nat) (σ : State) : Res State := do
  let g : GcSt := ⟨σ, σ.space (!σ.fromSp), 0, []⟩
  let (g, rt) ← copy_object g g.base.rootTop
  let g := { g with base := { g.base with rootTop := rt } }
  let (g, rc) ← copy_object g g.base.rootC2I
  let g := { g with base := { g.base with rootC2I := rc } }
  let (g, rsRev) ← copyPtrList g g.base.rootStack.reverse
  let g := { g with base := { g.base with rootStack := rsRev.reverse } }
  let (g, ccc') ← copyPtrList g g.base.ccc
  let g := { g with base := { g.base with ccc := ccc' } }
  let g ← gcDrain f g
  .ok (State.setSpace { g.base with fromSp := !g.base.fromSp, nextAlloc := g.dnext }
        (!g.base.fromSp) g.dest)

/-- `oom(n)` (lines 286-292): collect, and die with exit code 4 if `n` cells
still do not fit. -/
def oom (f : Nat) (n : Nat) (σ : State) : Res State := do
  let σ ← gcRun f σ
  if is_exhausted σ n then .error (.exited 4 "out of memory!\n") else .ok σ

/-- `check(n)` (lines 294-298). -/
def check (f : Nat) (n : Nat) (σ : State) : Res State :=
  if is_exhausted σ n then oom f n σ else .ok σ

/-- `check_rooted(n, e1, e2)` (lines 307-315): like `check`, but `e1` and
`e2` ride the root stack across the collection. -/
def check_rooted (f : Nat) (n : Nat) (σ : State) (e1 e2 : Ptr) :
    Res (State × Ptr × Ptr) :=
  if is_exhausted σ n then do
    let σ1 ← oom f n (root (root σ e1) e2)
    match unroot σ1 with
    | (σ2, e2') =>
      match unroot σ2 with
      | (σ3, e1') => .ok (σ3, e1', e2')
  else .ok (σ, e1, e2)

/-- The clamp at the top of `make_church_char`: out-of-range values (in
particular `EOF`) become 256. -/
def clamp256 (ch : Int) : Int := if ch < 0 ∨ 256 < ch then 256 else ch

/-- `make_church_char(ch)` (lines 325-334): clamp to `[0, 256]`, then return
the cached entry, building missing entries as `S2(SKSK, make(ch-1))`.  The
recursion is fueled because the termination of the C original rests on the
static initialization of entries 0 and 1. -/
def make_church_char : Nat → Int → State → Res (State × Ptr)
  | 0, ch, σ =>
    if cccGet σ (clamp256 ch).toNat = .null then .error .noFuel
    else .ok (σ, cccGet σ (clamp256 ch).toNat)
  | f+1, ch, σ =>
    if cccGet σ (clamp256 ch).toNat = .null then do
      let (σ1, p) ← make_church_char f (clamp256 ch - 1) σ
      match allocCell σ1 ⟨none, .ptr (.atom .SKSK), p, .S2⟩ with
      | (σ2, q) => .ok ({ σ2 with ccc := σ2.ccc.set (clamp256 ch).toNat q }, q)
    else .ok (σ, cccGet σ (clamp256 ch).toNat)

/-- The body of `drop_i1`'s do-while loop (lines 340-344): starting from an
`I1` cell, follow `arg1` until a non-`I1` cell is reached. -/
def i1Chase : Nat → State → Ptr → Res Ptr
  | 0, σ, p =>
    match getCell σ p with
    | none => .error .ub
    | some c =>
      match c.arg1 with
      | .num _ => .error .ub
      | .ptr x =>
        match getCell σ x with
        | none => .error .ub
        | some cx => if cx.tag = .I1 then .error .noFuel else .ok x
  | f+1, σ, p =>
    match getCell σ p with
    | none => .error .ub
    | some c =>
      match c.arg1 with
      | .num _ => .error .ub
      | .ptr x =>
        match getCell σ x with
        | none => .error .ub
        | some cx => if cx.tag = .I1 then i1Chase f σ x else .ok x

/-- `drop_i1` (lines 336-348): if `cur` is an `I1` chain, chase it down and
path-compress by overwriting the outermost cell's `arg1` with the bottom. -/
def drop_i1 (f : Nat) (σ : State) (cur : Ptr) : Res (State × Ptr) :=
  match getCell σ cur with
  | none => .error .ub
  | some c =>
    if c.tag = .I1 then do
      let r ← i1Chase f σ cur
      .ok (setCell σ cur { c with arg1 := .ptr r }, r)
    else .ok (σ, cur)

/-- The left-spine descent of `partial_eval` (lines 454-458): while `cur` is
an application, thread the ancestor chain through `arg1` (`cur->arg1 :=
prev`) and descend into the (`I1`-compressed) function position. -/
def spineWalk : Nat → State → Ptr → Ptr → Res (State × Ptr × Ptr)
  | 0, σ, prev, cur =>
    match getCell σ cur with
    | none => .error .ub
    | some c =>
      if c.tag = .A then
        match c.arg1 with
        | .num _ => .error .ub
        | .ptr _ => .error .noFuel
      else .ok (σ, prev, cur)
  | f+1, σ, prev, cur =>
    match getCell σ cur with
    | none => .error .ub
    | some c =>
      if c.tag = .A then
        match c.arg1 with
        | .num _ => .error .ub
        | .ptr a => do
          let (σ1, next) ← drop_i1 f σ a
          match getCell σ1 cur with
          | none => .error .ub
          | some c2 => spineWalk f (setCell σ1 cur { c2 with arg1 := .ptr prev }) cur next
      else .ok (σ, prev, cur)

/-- The `S2` case of `partial_eval_primitive_application` (lines 399-407),
shared with the fall-through from the `LazyRead` case: reserve 2 cells, then
rewrite `e` (still an application) so that its children become the two fresh
applications `A(lhs->arg1, rhs)` and `A(lhs->arg2, rhs)`. -/
def pevalPrimS2 (f : Nat) (σ0 : State) (e0 prev0 : Ptr) : Res (State × Ptr × Ptr) := do
  let (σ, e, prev) ← check_rooted f 2 σ0 e0 prev0
  match getCell σ e with
  | none => .error .ub
  | some ce =>
    match ce.arg1 with
    | .num _ => .error .ub
    | .ptr lhs =>
      match getCell σ lhs with
      | none => .error .ub
      | some cl => do
        let x ← argPtr cl.arg1
        match allocCell σ ⟨none, .ptr x, ce.arg2, .A⟩ with
        | (σ1, p1) =>
          match getCell σ1 e with
          | none => .error .ub
          | some ce2 =>
            match getCell (setCell σ1 e { ce2 with arg1 := .ptr p1 }) lhs with
            | none => .error .ub
            | some cl2 =>
              match allocCell (setCell σ1 e { ce2 with arg1 := .ptr p1 })
                  ⟨none, .ptr cl2.arg2, ce.arg2, .A⟩ with
              | (σ2, p2) =>
                match getCell σ2 e with
                | none => .error .ub
                | some ce3 => .ok (setCell σ2 e { ce3 with arg2 := p2 }, e, prev)

/-- `partial_eval_primitive_application` (lines 356-438), parameterized by
the recursive evaluator used in the `Inc` case (the only remaining reducer
recursion).  Returns the new `cur` together with the possibly updated `prev`
(which the C function takes by reference).  `f` fuels the collector and the
Church-cache builder. -/
def pevalPrim (recur : State → Ptr → Res (State × Ptr)) (f : Nat) (σ : State)
    (e prev : Ptr) : Res (State × Ptr × Ptr) :=
  match getCell σ e with
  | none => .error .ub
  | some ce =>
    match ce.arg1 with
    | .num _ => .error .ub
    | .ptr lhs =>
      match getCell σ lhs with
      | none => .error .ub
      | some cl =>
        match cl.tag with
        | .I =>
          .ok (setCell σ e { ce with tag := .I1, arg1 := .ptr ce.arg2, arg2 := .null },
               ce.arg2, prev)
        | .K =>
          .ok (setCell σ e { ce with tag := .K1, arg1 := .ptr ce.arg2, arg2 := .null }, e, prev)
        | .K1 => do
          let x ← argPtr cl.arg1
          .ok (setCell σ e { ce with tag := .I1, arg1 := .ptr x, arg2 := .null }, x, prev)
        | .S =>
          .ok (setCell σ e { ce with tag := .S1, arg1 := .ptr ce.arg2, arg2 := .null }, e, prev)
        | .S1 => do
          let x ← argPtr cl.arg1
          .ok (setCell σ e { ce with tag := .S2, arg1 := .ptr x, arg2 := ce.arg2 }, e, prev)
        | .LazyRead => do
          let (σ1, e1, prev1) ← check_rooted f 6 σ e prev
          match getCell σ1 e1 with
          | none => .error .ub
          | some ce2 =>
            match ce2.arg1 with
            | .num _ => .error .ub
            | .ptr lhs2 =>
              match getCell σ1 lhs2 with
              | none => .error .ub
              | some cl2 =>
                match getchar (setCell σ1 lhs2 { cl2 with tag := .S2 }) with
                | (b, σ2) => do
                  let (σ3, cp) ← make_church_char f b σ2
                  match allocCell σ3 ⟨none, .ptr cp, .null, .K1⟩ with
                  | (σ4, k1) =>
                    match allocCell σ4 ⟨none, .ptr (.atom .cI), k1, .S2⟩ with
                    | (σ5, s2) =>
                      match getCell σ5 lhs2 with
                      | none => .error .ub
                      | some clA =>
                        match allocCell (setCell σ5 lhs2 { clA with arg1 := .ptr s2 })
                            ⟨none, .ptr .null, .null, .LazyRead⟩ with
                        | (σ6, lr) =>
                          match allocCell σ6 ⟨none, .ptr lr, .null, .K1⟩ with
                          | (σ7, k1b) =>
                            match getCell σ7 lhs2 with
                            | none => .error .ub
                            | some clB =>
                              pevalPrimS2 f (setCell σ7 lhs2 { clB with arg2 := k1b }) e1 prev1
        | .S2 => pevalPrimS2 f σ e prev
        | .Inc => do
          let (σ1, r) ← recur (root (root σ e) prev) ce.arg2
          match unroot σ1 with
          | (σ2, prev') =>
            match unroot σ2 with
            | (σ3, e') =>
              match getCell σ3 r with
              | none => .error .ub
              | some rc =>
                match getCell σ3 e' with
                | none => .error .ub
                | some c' =>
                  if wrap32 (toNumber rc + 1) = 0 then
                    .error (.exited 3
                      "Runtime error: invalid output format (attempted to apply inc to a non-number)\n")
                  else
                    .ok (setCell σ3 e'
                          ⟨c'.forward, .num (wrap32 (toNumber rc + 1)), .null, .Num⟩,
                         e', prev')
        | .Num =>
          .error (.exited 3
            "Runtime error: invalid output format (attempted to apply a number)\n")
        | _ => .error .aborted

/-- The driver loop of `partial_eval` (lines 443-470): compress `I1` chains,
descend the left spine with the ancestor chain threaded through `arg1`,
unthread one step when a non-application head is reached, perform one
primitive rewrite there, and repeat, until the spine is exhausted. -/
def pevalLoop : Nat → State → Ptr → Ptr → Res (State × Ptr)
  | 0, _, _, _ => .error .noFuel
  | f+1, σ, prev, cur => do
    let (σ, cur) ← drop_i1 f σ cur
    let (σ, prev, cur) ← spineWalk f σ prev cur
    if prev = .null then .ok (σ, cur)
    else
      match getCell σ prev with
      | none => .error .ub
      | some cp =>
        match cp.arg1 with
        | .num _ => .error .ub
        | .ptr grand => do
          let (σ2, cur', prev') ←
            pevalPrim (fun σw n => pevalLoop f σw .null n) f
              (setCell σ prev { cp with arg1 := .ptr cur }) prev grand
          pevalLoop f σ2 prev' cur'

/-- `partial_eval(node)` (line 443): run the loop with an empty ancestor
chain. -/
def peval (f : Nat) (σ : State) (node : Ptr) : Res (State × Ptr) :=
  pevalLoop f σ .null node

/-- `church2int(church)` (lines 630-641): reserve two cells, build
`A(A(church, Inc), Num(0))`, install it in the decoding root slot, reduce,
and demand a number; the root slot is cleared on success. -/
def church2int (f : Nat) (σ0 : State) (church : Ptr) : Res (State × Int) := do
  let σ ← check f 2 σ0
  match allocCell σ ⟨none, .ptr church, .atom .cInc, .A⟩ with
  | (σ1, e1) =>
    match allocCell σ1 ⟨none, .ptr e1, .atom .cZero, .A⟩ with
    | (σ2, e0) => do
      let (σ3, r) ← peval f { σ2 with rootC2I := e0 } e0
      match getCell σ3 r with
      | none => .error .ub
      | some rc =>
        if toNumber rc = -1 then
          .error (.exited 3 "Runtime error: invalid output format (result was not a number)\n")
        else .ok ({ σ3 with rootC2I := .null }, toNumber rc)

/-- The output loop of `main` (lines 718-732): reserve a cell, build
`car(*toplevel_root) = A(top, K)`, decode it; a value of at least 256 ends
the process with exit code `value - 256`; otherwise the byte is written,
a cell is reserved and the top-level root is replaced by the list tail
`A(top, KI)`. -/
def mainLoop : Nat → State → Res (State × Int)
  | 0, _ => .error .noFuel
  | f+1, σ0 => do
    let σ ← check f 1 σ0
    match allocCell σ ⟨none, .ptr σ.rootTop, .atom .cK, .A⟩ with
    | (σ1, carp) => do
      let (σ2, ch) ← church2int f σ1 carp
      if 256 ≤ ch then .ok (σ2, ch - 256)
      else do
        let σ3 ← check f 1 { σ2 with stdout := σ2.stdout ++ [ch] }
        match allocCell σ3 ⟨none, .ptr σ3.rootTop, .atom .KI, .A⟩ with
        | (σ4, cdp) => mainLoop f { σ4 with rootTop := cdp }

/-- The installation of the top-level root (line 717):
`*toplevel_root = partial_apply(e, new Expr(LazyRead))`. -/
def installProgram (σ : State) (prog : Ptr) : State :=
  match allocCell σ ⟨none, .ptr .null, .null, .LazyRead⟩ with
  | (σ1, lr) =>
    match allocCell σ1 ⟨none, .ptr prog, lr, .A⟩ with
    | (σ2, ap) => { σ2 with rootTop := ap }

/-- The process state before `main` runs: empty arenas, space 1 active,
null roots, the statically initialized Church-character cache
`{ &KI, &cI, 0, ... }`. -/
def blankState : State :=
  ⟨true, .leaf, .leaf, 0, .null, .null, [],
   Ptr.atom .KI :: Ptr.atom .cI :: List.replicate 255 .null, [], []⟩

/-- The cache-preinitialization loop at the top of `main` (lines 676-678):
`make_church_char(i)` for `i = 0 .. 256`. -/
def preinit (σ : State) : Res State :=
  (List.range 257).foldlM (fun σ i => (make_church_char 600 i σ).map (·.1)) σ

/-- The machine state after `main`'s cache preinitialization. -/
def state0 : State := ((preinit blankState).toOption).getD blankState

/-- Expression trees as the parser builds them: `parse_expr` returns either
a static atom (`&cS`, `&cK`, `&cI`, `&Iota`) or a fresh unshared `A` cell
(`partial_apply`, line 317-322), so the graph it creates is a tree and is
embedded as one. -/
inductive PExpr where
  | pS | pK | pI | pIota
  | papp : PExpr → PExpr → PExpr
deriving DecidableEq, Repr

/-- Stream `getch` as the parser sees it: one character, or `EOF` (-1). -/
def pGetch (s : List Int) : Int × List Int :=
  match s with
  | [] => (-1, [])
  | c :: rest => (c, rest)

/-- Stream `ungetch`: push one character back (`ungetc(EOF, f)` and
`StringStream::ungetch(EOF)` are both no-ops). -/
def pUngetch (ch : Int) (s : List Int) : List Int :=
  if ch = -1 then s else ch :: s

/-- The Church-numeral-literal loop of `parse_expr` (lines 584-597): with
`ch` the digit that selected this case, left-fold applications onto `I`
(digit `0`: `e := A(A(e, S), K)`; digit `1`: `e := A(S, A(K, e))`) over the
maximal digit run, then push the terminating character back. -/
def digitStep (e : PExpr) (ch : Int) : PExpr :=
  if ch = 48 then .papp (.papp e .pS) .pK else .papp .pS (.papp .pK e)

/-- The body of the literal loop, the do-while of lines 586-594: apply the
digit that has been read, then keep going while digits follow. -/
def parseDigits : List Int → Int → PExpr → PExpr × List Int
  | s, ch, e =>
    let e := digitStep e ch
    match s with
    | [] => (e, pUngetch (-1) [])
    | c :: rest =>
      if c = 48 ∨ c = 49 then parseDigits rest c e
      else (e, pUngetch c rest)

/-- The `'0'`/`'1'` case of `parse_expr`, entered with `ch` already read. -/
def parseChurchLit (ch : Int) (s : List Int) : PExpr × List Int :=
  parseDigits s ch .pI

/-! ## Reasoning helpers

Unfold equations for `Except.bind`, and read/write lemmas for the machine
state, stated so that `rw`/`simp` can drive a symbolic execution. -/

theorem res_bind_ok {α β : Type} (v : α) (g : α → Res β) :
    (Except.ok v >>= g) = g v := rfl

theorem res_bind_err {α β : Type} (e : Err) (g : α → Res β) :
    ((Except.error e : Res α) >>= g) = .error e := rfl

theorem getCell_atom (σ : State) (a : AtomId) : getCell σ (.atom a) = some (atomCell a) := rfl

theorem getCell_null (σ : State) : getCell σ .null = none := rfl

theorem space_setSpace_self (σ : State) (sp : Bool) (t : HTree) :
    (σ.setSpace sp t).space sp = t := by
  cases sp <;> simp [State.space, State.setSpace]

theorem space_setSpace_ne (σ : State) (sp sp' : Bool) (t : HTree) (h : sp ≠ sp') :
    (σ.setSpace sp t).space sp' = σ.space sp' := by
  cases sp <;> cases sp' <;> simp_all [State.space, State.setSpace]

theorem getCell_setCell_self (σ : State) (sp : Bool) (i : Nat) (c : Cell) :
    getCell (setCell σ (.heap sp i) c) (.heap sp i) = some c := by
  simp [getCell, setCell, space_setSpace_self, HTree.get_set_self]

theorem getCell_setCell_ne (σ : State) (p q : Ptr) (c : Cell)
    (hq : ∀ sp i, p = .heap sp i → q ≠ .heap sp i) :
    getCell (setCell σ p c) q = getCell σ q := by
  match p with
  | .null => rfl
  | .atom _ => rfl
  | .heap sp i =>
    match q with
    | .null => rfl
    | .atom _ => rfl
    | .heap sp' i' =>
      by_cases hsp : sp = sp'
      · subst hsp
        have hne : i ≠ i' := fun hc => hq sp i rfl (by rw [hc])
        simp [getCell, setCell, space_setSpace_self, HTree.get_set_ne _ _ _ _ hne]
      · simp [getCell, setCell, space_setSpace_ne σ sp sp' _ hsp]

theorem setCell_fromSp (σ : State) (p : Ptr) (c : Cell) :
    (setCell σ p c).fromSp = σ.fromSp := by
  match p with
  | .null => rfl
  | .atom _ => rfl
  | .heap sp i => cases sp <;> rfl

theorem setCell_nextAlloc (σ : State) (p : Ptr) (c : Cell) :
    (setCell σ p c).nextAlloc = σ.nextAlloc := by
  match p with
  | .null => rfl
  | .atom _ => rfl
  | .heap sp i => cases sp <;> rfl

theorem setCell_rootStack (σ : State) (p : Ptr) (c : Cell) :
    (setCell σ p c).rootStack = σ.rootStack := by
  match p with
  | .null => rfl
  | .atom _ => rfl
  | .heap sp i => cases sp <;> rfl

theorem setCell_rootTop (σ : State) (p : Ptr) (c : Cell) :
    (setCell σ p c).rootTop = σ.rootTop := by
  match p with
  | .null => rfl
  | .atom _ => rfl
  | .heap sp i => cases sp <;> rfl

theorem setCell_rootC2I (σ : State) (p : Ptr) (c : Cell) :
    (setCell σ p c).rootC2I = σ.rootC2I := by
  match p with
  | .null => rfl
  | .atom _ => rfl
  | .heap sp i => cases sp <;> rfl

theorem setCell_ccc (σ : State) (p : Ptr) (c : Cell) :
    (setCell σ p c).ccc = σ.ccc := by
  match p with
  | .null => rfl
  | .atom _ => rfl
  | .heap sp i => cases sp <;> rfl

theorem setCell_stdin (σ : State) (p : Ptr) (c : Cell) :
    (setCell σ p c).stdin = σ.stdin := by
  match p with
  | .null => rfl
  | .atom _ => rfl
  | .heap sp i => cases sp <;> rfl

theorem setCell_stdout (σ : State) (p : Ptr) (c : Cell) :
    (setCell σ p c).stdout = σ.stdout := by
  match p with
  | .null => rfl
  | .atom _ => rfl
  | .heap sp i => cases sp <;> rfl

/-! ## C7: the Church-numeral-literal parser -/

theorem parseDigits_append : ∀ (ds rest : List Int) (ch : Int) (e : PExpr),
    (∀ c ∈ ds, c = 48 ∨ c = 49) →
    (rest = [] ∨ ∃ c cs, rest = c :: cs ∧ c ≠ 48 ∧ c ≠ 49 ∧ c ≠ -1) →
    parseDigits (ds ++ rest) ch e = ((ch :: ds).foldl digitStep e, rest) := by
  intro ds
  induction ds with
  | nil =>
    intro rest ch e _ hrest
    rcases hrest with rfl | ⟨c, cs, rfl, h1, h2, h3⟩
    · rw [List.nil_append, parseDigits]
      simp [pUngetch]
    · rw [List.nil_append, parseDigits]
      simp [h1, h2, pUngetch, h3]
  | cons d' ds' ih =>
    intro rest ch e hds hrest
    rw [List.cons_append, parseDigits]
    have hd' := hds d' (List.mem_cons_self _ _)
    simp only [hd', if_true, reduceIte]
    rw [ih rest d' (digitStep e ch) (fun c hc => hds c (List.mem_cons_of_mem _ hc)) hrest]
    rfl

/-- C7: a maximal run of `0`/`1` digits (entered at the digit `d`, with the
remaining digits `ds` followed by `rest`, whose head is neither a digit nor
`EOF`) left-folds applications onto `I` - digit `0` maps `e` to
`A(A(e, S), K)` and digit `1` maps `e` to `A(S, A(K, e))` - and pushes the
terminating character back onto the stream; in particular the literal `01`
parses to `A(S, A(K, A(A(I, S), K)))`. -/
theorem c7_church_literal (d : Int) (ds rest : List Int)
    (hds : ∀ c ∈ ds, c = 48 ∨ c = 49)
    (hrest : rest = [] ∨ ∃ c cs, rest = c :: cs ∧ c ≠ 48 ∧ c ≠ 49 ∧ c ≠ -1) :
    parseChurchLit d (ds ++ rest) = ((d :: ds).foldl digitStep .pI, rest) ∧
    parseChurchLit 48 [49] =
      (.papp .pS (.papp .pK (.papp (.papp .pI .pS) .pK)), []) := by
  refine ⟨parseDigits_append ds rest d .pI hds hrest, rfl⟩

/-- Witness for C7 at the concrete literal `01`. -/
theorem c7_church_literal_witness :
    parseChurchLit 48 ([49] ++ []) = (([48, 49]).foldl digitStep .pI, []) :=
  (c7_church_literal 48 [49] [] (by decide) (Or.inl rfl)).1

/-! ## C3: the impossible-tag branch of the primitive rewrite -/

/-- A two-cell state whose application head carries the tag `Free`, which no
case of `partial_eval_primitive_application` handles. -/
def sigma3ex : State :=
  let (σ, p0) := allocCell blankState ⟨none, .ptr .null, .null, .Free⟩
  (allocCell σ ⟨none, .ptr p0, .null, .A⟩).1

/-- C3 counterexample: on a concrete application whose head has the
impossible tag `Free`, the primitive rewrite runs `abort()` - the process is
killed by `SIGABRT` rather than terminating with exit code 4; the `exit(4)`
that follows the `abort()` on lines 429-434 is unreachable. -/
theorem c3_counterexample :
    pevalPrim (fun σ _ => .ok (σ, .null)) 5 sigma3ex (.heap true 1) .null =
      .error .aborted ∧
    ∀ (n : Int) (msg : String), (Err.aborted : Err) ≠ .exited n msg := by
  exact ⟨rfl, fun n msg h => Err.noConfusion h⟩

/-- C3 (amended): when the single-step primitive rewrite meets a head tag
none of its cases handle (`A`, `I1` or `Free`), the process terminates
abnormally through `abort()`; the `exit(4)` after the `abort()` never runs. -/
theorem c3_impossible_tag (recur : State → Ptr → Res (State × Ptr)) (f : Nat)
    (σ : State) (e prev : Ptr) (ce cl : Cell) (lhs : Ptr)
    (he : getCell σ e = some ce) (ha : ce.arg1 = .ptr lhs)
    (hl : getCell σ lhs = some cl)
    (ht : cl.tag = .A ∨ cl.tag = .I1 ∨ cl.tag = .Free) :
    pevalPrim recur f σ e prev = .error .aborted := by
  rw [pevalPrim, he]
  simp only [ha, hl]
  rcases ht with h | h | h <;> rw [h]

/-- Witness for C3's amended theorem at the concrete `Free`-headed cell. -/
theorem c3_impossible_tag_witness :
    getCell sigma3ex (.heap true 0) = some ⟨none, .ptr .null, .null, .Free⟩ ∧
    pevalPrim (fun _ _ => .error .noFuel) 7 sigma3ex (.heap true 1) .null =
      .error .aborted :=
  ⟨rfl, c3_impossible_tag _ 7 sigma3ex (.heap true 1) .null
    ⟨none, .ptr (.heap true 0), .null, .A⟩ ⟨none, .ptr .null, .null, .Free⟩
    (.heap true 0) rfl rfl rfl (Or.inr (Or.inr rfl))⟩

/-! ## C9: balance of the root-table stack -/

theorem copyObject_rootStack {g : GcSt} {p : Ptr} {g' : GcSt} {q : Ptr}
    (h : copy_object g p = .ok (g', q)) : g'.base.rootStack = g.base.rootStack := by
  rw [copy_object] at h
  split at h
  · split at h
    · exact absurd h (by simp)
    · split at h
      · cases h; rfl
      · cases h
        simp only []
        rw [setCell_rootStack]
  · cases h; rfl

theorem copyPtrList_rootStack : ∀ (ps : List Ptr) {g g' : GcSt} {qs : List Ptr},
    copyPtrList g ps = .ok (g', qs) →
    g'.base.rootStack = g.base.rootStack ∧ qs.length = ps.length := by
  intro ps
  induction ps with
  | nil =>
    intro g g' qs h
    rw [copyPtrList] at h
    cases h
    exact ⟨rfl, rfl⟩
  | cons p rest ih =>
    intro g g' qs h
    rw [copyPtrList] at h
    cases h1 : copy_object g p with
    | error e => rw [h1] at h; exact absurd h (by simp [res_bind_err])
    | ok gq =>
      obtain ⟨g1, q⟩ := gq
      rw [h1, res_bind_ok] at h
      simp only [] at h
      cases h2 : copyPtrList g1 rest with
      | error e => rw [h2] at h; exact absurd h (by simp [res_bind_err])
      | ok gqs =>
        obtain ⟨g2, qs'⟩ := gqs
        rw [h2, res_bind_ok] at h
        simp only [] at h
        cases h
        obtain ⟨hs, hl⟩ := ih h2
        exact ⟨hs.trans (copyObject_rootStack h1), by simp [hl]⟩

theorem gcDrain_rootStack : ∀ (f : Nat) {g g' : GcSt},
    gcDrain f g = .ok g' → g'.base.rootStack = g.base.rootStack := by
  intro f
  induction f with
  | zero => intro g g' h; exact absurd h (by simp [gcDrain])
  | succ f ih =>
    intro g g' h
    rw [gcDrain] at h
    split at h
    · cases h; rfl
    · rename_i j rest hw
      simp only [] at h
      split at h
      · exact absurd h (by simp)
      · rename_i c hget
        split at h
        · exact (ih h).trans rfl
        · rename_i htag
          cases h1 : argPtr c.arg1 with
          | error e => rw [h1] at h; exact absurd h (by simp [res_bind_err])
          | ok pa =>
            rw [h1, res_bind_ok] at h
            cases h2 : copy_object { g with work := rest } pa with
            | error e => rw [h2] at h; exact absurd h (by simp [res_bind_err])
            | ok ga1 =>
              obtain ⟨g1, a1⟩ := ga1
              rw [h2, res_bind_ok] at h
              simp only [] at h
              cases h3 : copy_object { g1 with dest := g1.dest.set j { c with arg1 := .ptr a1 } }
                  c.arg2 with
              | error e => rw [h3] at h; exact absurd h (by simp [res_bind_err])
              | ok ga2 =>
                obtain ⟨g2, a2⟩ := ga2
                rw [h3, res_bind_ok] at h
                simp only [] at h
                have e1 := copyObject_rootStack h2
                have e2 := copyObject_rootStack h3
                rw [ih h]
                simp only [] at e1 e2 ⊢
                rw [e2, e1]

theorem gcRun_rootStack_length {f : Nat} {σ σ' : State}
    (h : gcRun f σ = .ok σ') : σ'.rootStack.length = σ.rootStack.length := by
  rw [gcRun] at h
  cases h1 : copy_object ⟨σ, σ.space (!σ.fromSp), 0, []⟩ σ.rootTop with
  | error e => rw [h1] at h; exact absurd h (by simp [res_bind_err])
  | ok g1q =>
    obtain ⟨g1, rt⟩ := g1q
    rw [h1, res_bind_ok] at h
    simp only [] at h
    cases h2 : copy_object { g1 with base := { g1.base with rootTop := rt } }
        { g1.base with rootTop := rt }.rootC2I with
    | error e => rw [h2] at h; exact absurd h (by simp [res_bind_err])
    | ok g2q =>
      obtain ⟨g2, rc⟩ := g2q
      rw [h2, res_bind_ok] at h
      simp only [] at h
      cases h3 : copyPtrList { g2 with base := { g2.base with rootC2I := rc } }
          { g2.base with rootC2I := rc }.rootStack.reverse with
      | error e => rw [h3] at h; exact absurd h (by simp [res_bind_err])
      | ok g3q =>
        obtain ⟨g3, rsRev⟩ := g3q
        rw [h3, res_bind_ok] at h
        simp only [] at h
        cases h4 : copyPtrList { g3 with base := { g3.base with rootStack := rsRev.reverse } }
            { g3.base with rootStack := rsRev.reverse }.ccc with
        | error e => rw [h4] at h; exact absurd h (by simp [res_bind_err])
        | ok g4q =>
          obtain ⟨g4, ccc'⟩ := g4q
          rw [h4, res_bind_ok] at h
          simp only [] at h
          cases h5 : gcDrain f { g4 with base := { g4.base with ccc := ccc' } } with
          | error e => rw [h5] at h; exact absurd h (by simp [res_bind_err])
          | ok g5 =>
            rw [h5, res_bind_ok] at h
            cases h
            have e5 := gcDrain_rootStack f h5
            obtain ⟨e4, _⟩ := copyPtrList_rootStack _ h4
            obtain ⟨_, l3⟩ := copyPtrList_rootStack _ h3
            have e2 := copyObject_rootStack h2
            have e1 := copyObject_rootStack h1
            simp only [] at e1 e2 e4 e5 l3
            have hsp : ∀ (σw : State) (sp : Bool) (t : HTree),
                (State.setSpace σw sp t).rootStack = σw.rootStack := by
              intro σw sp t; cases sp <;> rfl
            rw [hsp]
            simp only []
            rw [e5, e4]
            simp only [List.length_reverse] at l3 ⊢
            rw [l3, e2, e1]

theorem allocCell_rootStack (σ : State) (c : Cell) :
    (allocCell σ c).1.rootStack = σ.rootStack := by
  simp only [allocCell]
  rw [setCell_rootStack]

theorem allocCell_fst (σ : State) (c : Cell) :
    (allocCell σ c).1 =
      { setCell σ (.heap σ.fromSp σ.nextAlloc) c with nextAlloc := σ.nextAlloc + 1 } := rfl

theorem allocCell_snd (σ : State) (c : Cell) :
    (allocCell σ c).2 = .heap σ.fromSp σ.nextAlloc := rfl

theorem unroot_length (σ : State) :
    (unroot σ).1.rootStack.length = σ.rootStack.length - 1 := by
  rcases hs : σ.rootStack with _ | ⟨x, rest⟩ <;> simp [unroot, hs]

theorem unroot_eq {σ : State} {x : Ptr} {rest : List Ptr} (hs : σ.rootStack = x :: rest) :
    unroot σ = ({ σ with rootStack := rest }, x) := by
  rw [unroot, hs]

theorem oom_rootStack_length {f n : Nat} {σ σ' : State}
    (h : oom f n σ = .ok σ') : σ'.rootStack.length = σ.rootStack.length := by
  rw [oom] at h
  cases h1 : gcRun f σ with
  | error e => rw [h1] at h; exact absurd h (by simp [res_bind_err])
  | ok σ1 =>
    rw [h1, res_bind_ok] at h
    split at h
    · exact absurd h (by simp)
    · cases h; exact gcRun_rootStack_length h1

theorem check_rootStack_length {f n : Nat} {σ σ' : State}
    (h : check f n σ = .ok σ') : σ'.rootStack.length = σ.rootStack.length := by
  rw [check] at h
  split at h
  · exact oom_rootStack_length h
  · cases h; rfl

theorem check_rooted_rootStack_length {f n : Nat} {σ σ' : State} {e1 e2 e1' e2' : Ptr}
    (h : check_rooted f n σ e1 e2 = .ok (σ', e1', e2')) :
    σ'.rootStack.length = σ.rootStack.length := by
  rw [check_rooted] at h
  split at h
  · cases h1 : oom f n (root (root σ e1) e2) with
    | error e => rw [h1] at h; exact absurd h (by simp [res_bind_err])
    | ok σ1 =>
      rw [h1, res_bind_ok] at h
      cases hu2 : unroot σ1 with
      | mk σ2 e2n =>
        rw [hu2] at h
        simp only [] at h
        cases hu1 : unroot σ2 with
        | mk σ3 e1n =>
          rw [hu1] at h
          simp only [] at h
          cases h
          have l1 := oom_rootStack_length h1
          have l2 : σ2.rootStack.length = σ1.rootStack.length - 1 := by
            rw [← unroot_length σ1, hu2]
          have l3 : σ'.rootStack.length = σ2.rootStack.length - 1 := by
            rw [← unroot_length σ2, hu1]
          have l0 : (root (root σ e1) e2).rootStack.length = σ.rootStack.length + 2 := by
            simp [root]
          have hσ1 : 1 ≤ σ1.rootStack.length ∧ 2 ≤ σ1.rootStack.length := by omega
          omega
  · cases h; rfl

theorem mcc_rootStack : ∀ (f : Nat) (b : Int) {σ σ' : State} {p : Ptr},
    make_church_char f b σ = .ok (σ', p) → σ'.rootStack = σ.rootStack := by
  intro f
  induction f with
  | zero =>
    intro b σ σ' q h
    rw [make_church_char] at h
    split at h
    · exact absurd h (by simp)
    · cases h; rfl
  | succ f ih =>
    intro b σ σ' q h
    rw [make_church_char] at h
    split at h
    · cases h1 : make_church_char f (clamp256 b - 1) σ with
      | error e => rw [h1] at h; exact absurd h (by simp [res_bind_err])
      | ok x =>
        obtain ⟨σ1, p1⟩ := x
        rw [h1, res_bind_ok] at h
        simp only [allocCell] at h
        cases h
        simp only []
        rw [setCell_rootStack]
        exact ih _ h1
    · cases h; rfl

theorem dropI1_state {f : Nat} {σ σ' : State} {cur r : Ptr}
    (h : drop_i1 f σ cur = .ok (σ', r)) :
    σ'.rootStack = σ.rootStack ∧ σ'.fromSp = σ.fromSp ∧ σ'.nextAlloc = σ.nextAlloc ∧
    σ'.stdin = σ.stdin ∧ σ'.stdout = σ.stdout ∧ σ'.rootTop = σ.rootTop ∧
    σ'.rootC2I = σ.rootC2I ∧ σ'.ccc = σ.ccc := by
  rw [drop_i1] at h
  split at h
  · exact absurd h (by simp)
  · rename_i c hc
    split at h
    · cases h1 : i1Chase f σ cur with
      | error e => rw [h1] at h; exact absurd h (by simp [res_bind_err])
      | ok r1 =>
        rw [h1, res_bind_ok] at h
        cases h
        exact ⟨setCell_rootStack .., setCell_fromSp .., setCell_nextAlloc ..,
          setCell_stdin .., setCell_stdout .., setCell_rootTop ..,
          setCell_rootC2I .., setCell_ccc ..⟩
    · cases h; exact ⟨rfl, rfl, rfl, rfl, rfl, rfl, rfl, rfl⟩

theorem spineWalk_state : ∀ (f : Nat) {σ σ' : State} {prev cur prev' cur' : Ptr},
    spineWalk f σ prev cur = .ok (σ', prev', cur') →
    σ'.rootStack = σ.rootStack ∧ σ'.fromSp = σ.fromSp ∧ σ'.nextAlloc = σ.nextAlloc ∧
    σ'.stdin = σ.stdin ∧ σ'.stdout = σ.stdout ∧ σ'.rootTop = σ.rootTop ∧
    σ'.rootC2I = σ.rootC2I ∧ σ'.ccc = σ.ccc := by
  intro f
  induction f with
  | zero =>
    intro σ σ' prev cur prev' cur' h
    rw [spineWalk] at h
    split at h
    · exact absurd h (by simp)
    · split at h
      · split at h
        · exact absurd h (by simp)
        · exact absurd h (by simp)
      · cases h; exact ⟨rfl, rfl, rfl, rfl, rfl, rfl, rfl, rfl⟩
  | succ f ih =>
    intro σ σ' prev cur prev' cur' h
    rw [spineWalk] at h
    split at h
    · exact absurd h (by simp)
    · rename_i c hc
      split at h
      · split at h
        · exact absurd h (by simp)
        · rename_i a ha
          cases h1 : drop_i1 f σ a with
          | error e => rw [h1] at h; exact absurd h (by simp [res_bind_err])
          | ok x =>
            obtain ⟨σ1, next⟩ := x
            rw [h1, res_bind_ok] at h
            simp only [] at h
            split at h
            · exact absurd h (by simp)
            · rename_i c2 hc2
              obtain ⟨d1, d2, d3, d4, d5, d6, d7, d8⟩ := dropI1_state h1
              obtain ⟨w1, w2, w3, w4, w5, w6, w7, w8⟩ := ih h
              refine ⟨?_, ?_, ?_, ?_, ?_, ?_, ?_, ?_⟩
              · rw [w1, setCell_rootStack, d1]
              · rw [w2, setCell_fromSp, d2]
              · rw [w3, setCell_nextAlloc, d3]
              · rw [w4, setCell_stdin, d4]
              · rw [w5, setCell_stdout, d5]
              · rw [w6, setCell_rootTop, d6]
              · rw [w7, setCell_rootC2I, d7]
              · rw [w8, setCell_ccc, d8]
      · cases h; exact ⟨rfl, rfl, rfl, rfl, rfl, rfl, rfl, rfl⟩

theorem pevalPrimS2_rootStack_length {f : Nat} {σ0 σ' : State} {e0 prev0 cur' prev' : Ptr}
    (h : pevalPrimS2 f σ0 e0 prev0 = .ok (σ', cur', prev')) :
    σ'.rootStack.length = σ0.rootStack.length := by
  rw [pevalPrimS2] at h
  cases h0 : check_rooted f 2 σ0 e0 prev0 with
  | error e => rw [h0] at h; exact absurd h (by simp [res_bind_err])
  | ok x =>
    obtain ⟨σ1, e1, p1⟩ := x
    rw [h0, res_bind_ok] at h
    simp only [] at h
    have hc := check_rooted_rootStack_length h0
    split at h
    · exact absurd h (by simp)
    · rename_i ce hce
      split at h
      · exact absurd h (by simp)
      · rename_i lhs hlhs
        split at h
        · exact absurd h (by simp)
        · rename_i cl hcl
          cases h1 : argPtr cl.arg1 with
          | error e => rw [h1] at h; exact absurd h (by simp [res_bind_err])
          | ok x1 =>
            rw [h1, res_bind_ok] at h
            simp only [allocCell] at h
            split at h
            · exact absurd h (by simp)
            · rename_i ce2 hce2
              split at h
              · exact absurd h (by simp)
              · rename_i cl2 hcl2
                split at h
                · exact absurd h (by simp)
                · rename_i ce3 hce3
                  cases h
                  simp only [setCell_rootStack]
                  exact hc

theorem pevalPrim_rootStack_length
    {recur : State → Ptr → Res (State × Ptr)}
    (hrec : ∀ σw n σw' r, recur σw n = .ok (σw', r) →
      σw'.rootStack.length = σw.rootStack.length)
    {f : Nat} {σ σ' : State} {e prev cur' prev' : Ptr}
    (h : pevalPrim recur f σ e prev = .ok (σ', cur', prev')) :
    σ'.rootStack.length = σ.rootStack.length := by
  rw [pevalPrim] at h
  split at h
  · exact absurd h (by simp)
  · rename_i ce hce
    split at h
    · exact absurd h (by simp)
    · rename_i lhs hlhs
      split at h
      · exact absurd h (by simp)
      · rename_i cl hcl
        split at h
        -- I
        · cases h; rw [setCell_rootStack]
        -- K
        · cases h; rw [setCell_rootStack]
        -- K1
        · cases h1 : argPtr cl.arg1 with
          | error e => rw [h1] at h; exact absurd h (by simp [res_bind_err])
          | ok x =>
            rw [h1, res_bind_ok] at h
            cases h; rw [setCell_rootStack]
        -- S
        · cases h; rw [setCell_rootStack]
        -- S1
        · cases h1 : argPtr cl.arg1 with
          | error e => rw [h1] at h; exact absurd h (by simp [res_bind_err])
          | ok x =>
            rw [h1, res_bind_ok] at h
            cases h; rw [setCell_rootStack]
        -- LazyRead
        · cases h0 : check_rooted f 6 σ e prev with
          | error er => rw [h0] at h; exact absurd h (by simp [res_bind_err])
          | ok x0 =>
            obtain ⟨σ1, e1, p1⟩ := x0
            rw [h0, res_bind_ok] at h
            simp only [] at h
            have hc := check_rooted_rootStack_length h0
            split at h
            · exact absurd h (by simp)
            · rename_i ce2 hce2
              split at h
              · exact absurd h (by simp)
              · rename_i lhs2 hl2
                split at h
                · exact absurd h (by simp)
                · rename_i cl2 hcl2
                  cases hg : getchar (setCell σ1 lhs2 { cl2 with tag := .S2 }) with
                  | mk b σ2 =>
                    rw [hg] at h
                    simp only [] at h
                    cases h1 : make_church_char f b σ2 with
                    | error er => rw [h1] at h; exact absurd h (by simp [res_bind_err])
                    | ok x1 =>
                      obtain ⟨σ3, cp⟩ := x1
                      rw [h1, res_bind_ok] at h
                      simp only [allocCell] at h
                      split at h
                      · exact absurd h (by simp)
                      · rename_i clA hclA
                        split at h
                        · exact absurd h (by simp)
                        · rename_i clB hclB
                          have l2 : σ2.rootStack = σ1.rootStack := by
                            have : σ2 = (getchar (setCell σ1 lhs2
                                { cl2 with tag := .S2 })).2 := by rw [hg]
                            rw [this]
                            rw [getchar]
                            rcases (setCell σ1 lhs2 { cl2 with tag := .S2 }).stdin with
                              _ | ⟨b0, rest⟩ <;> simp [setCell_rootStack]
                          have l3 := mcc_rootStack f b h1
                          have l4 := pevalPrimS2_rootStack_length h
                          rw [l4]
                          simp only [setCell_rootStack]
                          rw [l3, l2]
                          exact hc
        -- S2
        · exact (pevalPrimS2_rootStack_length h).trans rfl
        -- Inc
        · cases h1 : recur (root (root σ e) prev) ce.arg2 with
          | error er => rw [h1] at h; exact absurd h (by simp [res_bind_err])
          | ok x1 =>
            obtain ⟨σ1, r⟩ := x1
            rw [h1, res_bind_ok] at h
            simp only [] at h
            cases hu2 : unroot σ1 with
            | mk σ2 pv =>
              rw [hu2] at h
              simp only [] at h
              cases hu1 : unroot σ2 with
              | mk σ3 e3 =>
                rw [hu1] at h
                simp only [] at h
                split at h
                · exact absurd h (by simp)
                · rename_i rc hrc
                  split at h
                  · exact absurd h (by simp)
                  · rename_i c3 hc3
                    split at h
                    · exact absurd h (by simp)
                    · cases h
                      have l1 := hrec _ _ _ _ h1
                      have l2 : σ2.rootStack.length = σ1.rootStack.length - 1 := by
                        rw [← unroot_length σ1, hu2]
                      have l3 : σ3.rootStack.length = σ2.rootStack.length - 1 := by
                        rw [← unroot_length σ2, hu1]
                      have l0 : (root (root σ e) prev).rootStack.length =
                          σ.rootStack.length + 2 := by simp [root]
                      rw [setCell_rootStack]
                      omega
        -- Num
        · exact absurd h (by simp)
        -- default (A, I1, Free)
        · exact absurd h (by simp)

theorem pevalLoop_rootStack_length : ∀ (f : Nat) {σ σ' : State} {prev cur r : Ptr},
    pevalLoop f σ prev cur = .ok (σ', r) →
    σ'.rootStack.length = σ.rootStack.length := by
  intro f
  induction f with
  | zero => intro σ σ' prev cur r h; exact absurd h (by simp [pevalLoop])
  | succ f ih =>
    intro σ σ' prev cur r h
    rw [pevalLoop] at h
    cases h1 : drop_i1 f σ cur with
    | error e => rw [h1] at h; exact absurd h (by simp [res_bind_err])
    | ok x1 =>
      obtain ⟨σ1, cur1⟩ := x1
      rw [h1, res_bind_ok] at h
      simp only [] at h
      cases h2 : spineWalk f σ1 prev cur1 with
      | error e => rw [h2] at h; exact absurd h (by simp [res_bind_err])
      | ok x2 =>
        obtain ⟨σ2, prev2, cur2⟩ := x2
        rw [h2, res_bind_ok] at h
        simp only [] at h
        have l1 := (dropI1_state h1).1
        have l2 := (spineWalk_state f h2).1
        split at h
        · cases h; rw [l2, l1]
        · split at h
          · exact absurd h (by simp)
          · rename_i cp hcp
            split at h
            · exact absurd h (by simp)
            · rename_i grand hgrand
              cases h3 : pevalPrim (fun σw n => pevalLoop f σw .null n) f
                  (setCell σ2 prev2 { cp with arg1 := .ptr cur2 }) prev2 grand with
              | error e => rw [h3] at h; exact absurd h (by simp [res_bind_err])
              | ok x3 =>
                obtain ⟨σ3, cur3, prev3⟩ := x3
                rw [h3, res_bind_ok] at h
                simp only [] at h
                have l3 := pevalPrim_rootStack_length
                  (fun σw n σw' rw hw => ih hw) h3
                have l4 := ih h
                rw [l4, l3, setCell_rootStack, l2, l1]

/-- C9: across every invocation of `partial_eval` that returns, the root
stack is balanced: `root_stack_top` has the same value at return as at
entry (every push in `check_rooted` and in the `Inc` rewrite case is matched
by a pop before return). -/
theorem c9_root_stack_balanced {f : Nat} {σ σ' : State} {node r : Ptr}
    (h : peval f σ node = .ok (σ', r)) :
    σ'.rootStack.length = σ.rootStack.length := by
  rw [peval] at h
  exact pevalLoop_rootStack_length f h

/-- A one-cell machine holding `A(K, I)`, for witnesses. -/
def wState1 : State := (allocCell blankState ⟨none, .ptr (.atom .cK), .atom .cI, .A⟩).1

/-- The machine after `partial_eval` rewrites `A(K, I)` into `K1(I)`. -/
def wState1' : State := setCell wState1 (.heap true 0) ⟨none, .ptr (.atom .cI), .null, .K1⟩

set_option maxRecDepth 20000 in
/-- Witness for C9: a one-step reduction of `A(K, I)` (which pushes and pops
nothing, and rewrites the node to `K1(I)`). -/
theorem c9_root_stack_balanced_witness :
    peval 5 wState1 (.heap true 0) = .ok (wState1', .heap true 0) ∧
    wState1'.rootStack.length = wState1.rootStack.length :=
  ⟨by decide, @c9_root_stack_balanced 5 wState1 wState1' (.heap true 0) (.heap true 0)
    (by decide)⟩

/-! ## C10: the reducer never returns an `A` or `I1` cell -/

theorem i1Chase_tag : ∀ (f : Nat) {σ : State} {p x : Ptr},
    i1Chase f σ p = .ok x → ∃ cx, getCell σ x = some cx ∧ cx.tag ≠ .I1 := by
  intro f
  induction f with
  | zero =>
    intro σ p x h
    rw [i1Chase] at h
    split at h
    · exact absurd h (by simp)
    · split at h
      · exact absurd h (by simp)
      · split at h
        · exact absurd h (by simp)
        · rename_i x0 hx0 cx hcx
          split at h
          · exact absurd h (by simp)
          · cases h; exact ⟨cx, hcx, by assumption⟩
  | succ f ih =>
    intro σ p x h
    rw [i1Chase] at h
    split at h
    · exact absurd h (by simp)
    · split at h
      · exact absurd h (by simp)
      · split at h
        · exact absurd h (by simp)
        · rename_i x0 hx0 cx hcx
          split at h
          · exact ih h
          · cases h; exact ⟨cx, hcx, by assumption⟩

theorem dropI1_tag {f : Nat} {σ σ' : State} {cur r : Ptr}
    (h : drop_i1 f σ cur = .ok (σ', r)) :
    ∃ c, getCell σ' r = some c ∧ c.tag ≠ .I1 := by
  rw [drop_i1] at h
  split at h
  · exact absurd h (by simp)
  · rename_i c hc
    split at h
    · rename_i hI1
      cases h1 : i1Chase f σ cur with
      | error e => rw [h1] at h; exact absurd h (by simp [res_bind_err])
      | ok r1 =>
        rw [h1, res_bind_ok] at h
        cases h
        obtain ⟨cx, hcx, hne⟩ := i1Chase_tag f h1
        have hrc : r ≠ cur := by
          intro hc2
          rw [hc2, hc] at hcx
          cases hcx
          exact hne hI1
        refine ⟨cx, ?_, hne⟩
        rw [getCell_setCell_ne σ cur r _ ?_, hcx]
        intro sp i hp
        rw [← hp]
        exact hrc
    · cases h
      exact ⟨c, hc, by assumption⟩

theorem spineWalk_exit : ∀ (f : Nat) {σ : State} {prev cur : Ptr} {c : Cell},
    getCell σ cur = some c → c.tag ≠ .A →
    spineWalk f σ prev cur = .ok (σ, prev, cur) := by
  intro f σ prev cur c hc hA
  cases f <;> rw [spineWalk] <;> rw [hc] <;> simp only [] <;> rw [if_neg hA]

theorem spineWalk_tag : ∀ (f : Nat) {σ σ' : State} {prev cur prev' cur' : Ptr},
    spineWalk f σ prev cur = .ok (σ', prev', cur') →
    (∃ c, getCell σ cur = some c ∧ c.tag ≠ .I1) →
    ∃ c', getCell σ' cur' = some c' ∧ c'.tag ≠ .A ∧ c'.tag ≠ .I1 := by
  intro f
  induction f with
  | zero =>
    intro σ σ' prev cur prev' cur' h hpre
    rw [spineWalk] at h
    split at h
    · exact absurd h (by simp)
    · rename_i c0 hc0
      split at h
      · split at h
        · exact absurd h (by simp)
        · exact absurd h (by simp)
      · cases h
        obtain ⟨c, hc, hI⟩ := hpre
        rw [hc0] at hc
        cases hc
        exact ⟨c0, hc0, by assumption, hI⟩
  | succ f ih =>
    intro σ σ' prev cur prev' cur' h hpre
    rw [spineWalk] at h
    split at h
    · exact absurd h (by simp)
    · rename_i c0 hc0
      split at h
      · rename_i hA0
        split at h
        · exact absurd h (by simp)
        · rename_i a ha
          cases h1 : drop_i1 f σ a with
          | error e => rw [h1] at h; exact absurd h (by simp [res_bind_err])
          | ok x1 =>
            obtain ⟨σ1, next⟩ := x1
            rw [h1, res_bind_ok] at h
            simp only [] at h
            split at h
            · exact absurd h (by simp)
            · rename_i c2 hc2
              obtain ⟨cn, hcn, hnI⟩ := dropI1_tag h1
              refine ih h ?_
              by_cases hnc : next = cur
              · subst hnc
                match hnext : next, hc2, hcn with
                | .null, hc2, hcn => exact absurd hcn (by rw [getCell_null]; simp)
                | .atom a, hc2, hcn =>
                  refine ⟨cn, ?_, hnI⟩
                  show getCell (setCell σ1 (.atom a) _) (.atom a) = some cn
                  rw [show ∀ (σw : State) (c : Cell), setCell σw (.atom a) c = σw
                    from fun _ _ => rfl]
                  exact hcn
                | .heap sp i, hc2, hcn =>
                  refine ⟨{ c2 with arg1 := .ptr prev }, getCell_setCell_self .., ?_⟩
                  have hcc : cn = c2 := by
                    rw [hc2] at hcn; cases hcn; rfl
                  simpa using (hcc ▸ hnI)
              · refine ⟨cn, ?_, hnI⟩
                rw [getCell_setCell_ne σ1 cur next _
                  (fun sp i hp hq => hnc (hq.trans hp.symm))]
                exact hcn
      · cases h
        obtain ⟨c, hc, hI⟩ := hpre
        rw [hc0] at hc
        cases hc
        exact ⟨c0, hc0, by assumption, hI⟩

theorem pevalLoop_result_tag : ∀ (f : Nat) {σ σ' : State} {prev cur r : Ptr},
    pevalLoop f σ prev cur = .ok (σ', r) →
    ∃ c, getCell σ' r = some c ∧ c.tag ≠ .A ∧ c.tag ≠ .I1 := by
  intro f
  induction f with
  | zero => intro σ σ' prev cur r h; exact absurd h (by simp [pevalLoop])
  | succ f ih =>
    intro σ σ' prev cur r h
    rw [pevalLoop] at h
    cases h1 : drop_i1 f σ cur with
    | error e => rw [h1] at h; exact absurd h (by simp [res_bind_err])
    | ok x1 =>
      obtain ⟨σ1, cur1⟩ := x1
      rw [h1, res_bind_ok] at h
      simp only [] at h
      cases h2 : spineWalk f σ1 prev cur1 with
      | error e => rw [h2] at h; exact absurd h (by simp [res_bind_err])
      | ok x2 =>
        obtain ⟨σ2, prev2, cur2⟩ := x2
        rw [h2, res_bind_ok] at h
        simp only [] at h
        split at h
        · cases h
          exact spineWalk_tag f h2 (dropI1_tag h1)
        · split at h
          · exact absurd h (by simp)
          · rename_i cp hcp
            split at h
            · exact absurd h (by simp)
            · rename_i grand hgrand
              cases h3 : pevalPrim (fun σw n => pevalLoop f σw .null n) f
                  (setCell σ2 prev2 { cp with arg1 := .ptr cur2 }) prev2 grand with
              | error e => rw [h3] at h; exact absurd h (by simp [res_bind_err])
              | ok x3 =>
                obtain ⟨σ3, cur3, prev3⟩ := x3
                rw [h3, res_bind_ok] at h
                simp only [] at h
                exact ih h

/-- C10: whenever `partial_eval` terminates normally, the returned cell has
a tag that is neither `A` nor `I1`: although a weak-head normal form could a
priori be an `I1` node, the `drop_i1` compression at every loop entry means
the reducer never hands one back. -/
theorem c10_result_not_A_not_I1 {f : Nat} {σ σ' : State} {node r : Ptr}
    (h : peval f σ node = .ok (σ', r)) :
    ∃ c, getCell σ' r = some c ∧ c.tag ≠ .A ∧ c.tag ≠ .I1 := by
  rw [peval] at h
  exact pevalLoop_result_tag f h

set_option maxRecDepth 20000 in
/-- Witness for C10 on the one-step reduction of `A(K, I)`. -/
theorem c10_result_not_A_not_I1_witness :
    peval 5 wState1 (.heap true 0) = .ok (wState1', .heap true 0) ∧
    (∃ c, getCell wState1' (.heap true 0) = some c ∧ c.tag ≠ .A ∧ c.tag ≠ .I1) :=
  ⟨by decide, @c10_result_not_A_not_I1 5 wState1 wState1' (.heap true 0) (.heap true 0)
    (by decide)⟩

/-! ## C4: idempotence of the reducer -/

theorem dropI1_noop {f : Nat} {σ : State} {r : Ptr} {c : Cell}
    (hc : getCell σ r = some c) (hI : c.tag ≠ .I1) :
    drop_i1 f σ r = .ok (σ, r) := by
  rw [drop_i1, hc]
  simp only []
  rw [if_neg hI]

/-- C4: the reducer is idempotent - whenever `partial_eval` terminates
normally, running `partial_eval` again on the cell it returned (with any
positive fuel) changes nothing and yields the same cell. -/
theorem c4_idempotent {f : Nat} {σ σ' : State} {node r : Ptr}
    (h : peval f σ node = .ok (σ', r)) :
    ∀ f' : Nat, peval (f' + 1) σ' r = .ok (σ', r) := by
  intro f'
  obtain ⟨c, hc, hA, hI⟩ := c10_result_not_A_not_I1 h
  rw [peval, pevalLoop]
  rw [dropI1_noop hc hI, res_bind_ok]
  simp only []
  rw [spineWalk_exit f' hc hA, res_bind_ok]
  simp only []
  rw [if_pos trivial]

set_option maxRecDepth 20000 in
/-- Witness for C4 on the one-step reduction of `A(K, I)`. -/
theorem c4_idempotent_witness :
    peval 5 wState1 (.heap true 0) = .ok (wState1', .heap true 0) ∧
    peval 3 wState1' (.heap true 0) = .ok (wState1', .heap true 0) :=
  ⟨by decide, @c4_idempotent 5 wState1 wState1' (.heap true 0) (.heap true 0) (by decide) 2⟩

/-! ## C2: the `Inc` case of the primitive rewrite -/

theorem wrap32_zero : wrap32 0 = 0 := by decide

theorem toNumber_notNum {c : Cell} (h : c.tag ≠ .Num) : toNumber c = -1 := by
  rw [toNumber, if_neg h]

/-- C2: when the primitive rewriter meets `e = A(lhs, rhs)` with `lhs` of
tag `Inc`, it recursively reduces `rhs` (with `e` and `prev` parked on the
root stack); if the result `rc` does not have tag `Num`, or if the
increment `rc.numeric + 1` wraps to zero, the process exits with code 3 and
an "invalid output format" diagnostic; otherwise the (possibly relocated)
cell `e'` popped back off the root stack is rewritten in place to
`Num(rc.numeric + 1)` and returned. -/
theorem c2_inc_rewrite
    (recur : State → Ptr → Res (State × Ptr)) (f : Nat) (σ σ1 σ2 σ3 : State)
    (e prev lhs r prev' e' : Ptr) (ce cl rc c' : Cell)
    (hce : getCell σ e = some ce) (_htag : ce.tag = .A)
    (ha : ce.arg1 = .ptr lhs)
    (hcl : getCell σ lhs = some cl) (hlt : cl.tag = .Inc)
    (hrec : recur (root (root σ e) prev) ce.arg2 = .ok (σ1, r))
    (hu2 : unroot σ1 = (σ2, prev')) (hu1 : unroot σ2 = (σ3, e'))
    (hrc : getCell σ3 r = some rc) (hc' : getCell σ3 e' = some c') :
    (rc.tag ≠ .Num ∨ wrap32 (toNumber rc + 1) = 0 →
      pevalPrim recur f σ e prev = .error (.exited 3
        "Runtime error: invalid output format (attempted to apply inc to a non-number)\n")) ∧
    (rc.tag = .Num → wrap32 (toNumber rc + 1) ≠ 0 →
      pevalPrim recur f σ e prev =
        .ok (setCell σ3 e' ⟨c'.forward, .num (wrap32 (toNumber rc + 1)), .null, .Num⟩,
             e', prev')) := by
  have hbody : pevalPrim recur f σ e prev =
      (if wrap32 (toNumber rc + 1) = 0 then
        .error (.exited 3
          "Runtime error: invalid output format (attempted to apply inc to a non-number)\n")
      else
        .ok (setCell σ3 e' ⟨c'.forward, .num (wrap32 (toNumber rc + 1)), .null, .Num⟩,
             e', prev')) := by
    rw [pevalPrim, hce]
    simp only [ha, hcl, hlt]
    rw [hrec, res_bind_ok]
    simp only []
    rw [hu2]
    simp only []
    rw [hu1]
    simp only []
    rw [hrc]
    simp only []
    rw [hc']
  constructor
  · intro hcond
    have hz : wrap32 (toNumber rc + 1) = 0 := by
      rcases hcond with hnn | hz
      · rw [toNumber_notNum hnn]
        simpa using wrap32_zero
      · exact hz
    rw [hbody, if_pos hz]
  · intro _ hnz
    rw [hbody, if_neg hnz]

/-- A one-cell machine holding `A(Inc, Num0)`, for the C2 witness. -/
def wState2 : State :=
  (allocCell blankState ⟨none, .ptr (.atom .cInc), .atom .cZero, .A⟩).1

set_option maxRecDepth 20000 in
/-- Witness for C2: reducing `A(Inc, Num(0))` rewrites the cell to `Num(1)`. -/
theorem c2_inc_rewrite_witness :
    pevalPrim (fun σw n => pevalLoop 3 σw .null n) 5 wState2 (.heap true 0) .null =
      .ok (setCell wState2 (.heap true 0) ⟨none, .num 1, .null, .Num⟩,
           .heap true 0, .null) := by
  have h := (c2_inc_rewrite (fun σw n => pevalLoop 3 σw .null n) 5 wState2
    (root (root wState2 (.heap true 0)) .null)
    (root wState2 (.heap true 0)) wState2
    (.heap true 0) .null (.atom .cInc) (.atom .cZero) .null (.heap true 0)
    ⟨none, .ptr (.atom .cInc), .atom .cZero, .A⟩ (atomCell .cInc) (atomCell .cZero)
    ⟨none, .ptr (.atom .cInc), .atom .cZero, .A⟩
    (by decide) (by decide) (by decide) (by decide) (by decide)
    (by decide) (by decide) (by decide) (by decide) (by decide)).2
    (by decide) (by decide)
  exact h.trans (by decide)

/-! ## C1: the `LazyRead` case of the primitive rewrite -/

theorem mcc_hit {f : Nat} {ch : Int} {σ : State}
    (h : ¬ cccGet σ (clamp256 ch).toNat = .null) :
    make_church_char f ch σ = .ok (σ, cccGet σ (clamp256 ch).toNat) := by
  cases f <;> rw [make_church_char] <;> rw [if_neg h]

theorem getCell_withNextAlloc (X : State) (m : Nat) (p : Ptr) :
    getCell { X with nextAlloc := m } p = getCell X p := by
  cases p <;> rfl

theorem getCell_withStdin (X : State) (sIn : List Int) (p : Ptr) :
    getCell { X with stdin := sIn } p = getCell X p := by
  cases p <;> rfl

theorem getCell_allocCell_old {σ : State} {c : Cell} {sp : Bool} {i : Nat}
    (h : i < σ.nextAlloc ∨ ¬ sp = σ.fromSp) :
    getCell (allocCell σ c).1 (.heap sp i) = getCell σ (.heap sp i) := by
  rw [allocCell_fst, getCell_withNextAlloc]
  refine getCell_setCell_ne σ _ _ _ ?_
  intro sp' i' hp hq
  cases hp
  cases hq
  rcases h with h | h
  · omega
  · exact h rfl

theorem getCell_allocCell_self (σ : State) (c : Cell) :
    getCell (allocCell σ c).1 (.heap σ.fromSp σ.nextAlloc) = some c := by
  rw [allocCell_fst, getCell_withNextAlloc]
  exact getCell_setCell_self σ _ _ c

theorem allocCell_fromSp (σ : State) (c : Cell) : (allocCell σ c).1.fromSp = σ.fromSp := by
  rw [allocCell_fst]
  show (setCell σ _ c).fromSp = σ.fromSp
  exact setCell_fromSp ..

theorem allocCell_nextAlloc (σ : State) (c : Cell) :
    (allocCell σ c).1.nextAlloc = σ.nextAlloc + 1 := rfl

theorem allocCell_stdin (σ : State) (c : Cell) : (allocCell σ c).1.stdin = σ.stdin := by
  rw [allocCell_fst]
  show (setCell σ _ c).stdin = σ.stdin
  exact setCell_stdin ..

theorem allocCell_ccc (σ : State) (c : Cell) : (allocCell σ c).1.ccc = σ.ccc := by
  rw [allocCell_fst]
  show (setCell σ _ c).ccc = σ.ccc
  exact setCell_ccc ..

/-- The shape the code gives a forced `LazyRead` cell (lines 392-397):
`S2(S2(I, K1(cp)), K1(LazyRead'))` where `cp` is the cached Church
character and `LazyRead'` is fresh. -/
def lazyRewriteShape (σ : State) (lhs cp : Ptr) : Bool :=
  match getCell σ lhs with
  | some cl =>
    (cl.tag == .S2) &&
    (match cl.arg1 with
     | .ptr p1 =>
       (match getCell σ p1 with
        | some c1 =>
          (c1.tag == .S2) && (c1.arg1 == .ptr (.atom .cI)) &&
          (match getCell σ c1.arg2 with
           | some ck => (ck.tag == .K1) && (ck.arg1 == .ptr cp)
           | none => false)
        | none => false)
     | .num _ => false) &&
    (match getCell σ cl.arg2 with
     | some c2 =>
       (c2.tag == .K1) &&
       (match c2.arg1 with
        | .ptr p2 =>
          (match getCell σ p2 with
           | some clr => clr.tag == .LazyRead
           | none => false)
        | .num _ => false)
     | none => false)
  | none => false

/-- The shape claim C1 (and the spec text of the `LazyRead` rule) asserts
for the rewritten cell: `S2(A(I, K1(cp)), K1(LazyRead'))`, whose inner node
is an application `A` rather than `S2`. -/
def specLazyRewriteShape (σ : State) (lhs cp : Ptr) : Bool :=
  match getCell σ lhs with
  | some cl =>
    (cl.tag == .S2) &&
    (match cl.arg1 with
     | .ptr p1 =>
       (match getCell σ p1 with
        | some c1 =>
          (c1.tag == .A) && (c1.arg1 == .ptr (.atom .cI)) &&
          (match getCell σ c1.arg2 with
           | some ck => (ck.tag == .K1) && (ck.arg1 == .ptr cp)
           | none => false)
        | none => false)
     | .num _ => false) &&
    (match getCell σ cl.arg2 with
     | some c2 =>
       (c2.tag == .K1) &&
       (match c2.arg1 with
        | .ptr p2 =>
          (match getCell σ p2 with
           | some clr => clr.tag == .LazyRead
           | none => false)
        | .num _ => false)
     | none => false)
  | none => false

/-- A machine with a `LazyRead` cell applied to `K`, one byte (0) on
standard input. -/
def wStateLR : State :=
  (allocCell
    ((allocCell { blankState with stdin := [0] }
      ⟨none, .ptr .null, .null, .LazyRead⟩).1)
    ⟨none, .ptr (.heap true 0), .atom .cK, .A⟩).1

set_option maxRecDepth 40000 in
/-- C1 counterexample: forcing the concrete `LazyRead` application above
succeeds, and the rewritten `LazyRead` cell does NOT have the shape
`S2(A(I, K1(ccc[b])), K1(LazyRead'))` the claim asserts (its inner node is
an `S2`, not an `A`): the claim is false at this input. -/
theorem c1_counterexample :
    (match pevalPrim (fun _ _ => .error .noFuel) 10 wStateLR (.heap true 1) .null with
     | .ok (σ', _, _) => specLazyRewriteShape σ' (.heap true 0) (.atom .KI)
     | _ => true) = false := by decide

theorem cccGet_setCell (σ : State) (p : Ptr) (c : Cell) (i : Nat) :
    cccGet (setCell σ p c) i = cccGet σ i := by
  rw [cccGet, cccGet, setCell_ccc]

theorem getchar_stdin_eq {σ1 σ2 : State} (h : σ1.stdin = σ2.stdin) :
    getchar σ1 = ((getchar σ2).1, { σ1 with stdin := (getchar σ2).2.stdin }) := by
  rw [getchar, getchar, h]
  rcases hs : σ2.stdin with _ | ⟨b, rest⟩ <;> simp only []
  rw [← h]

theorem getchar_fst (σ : State) : (getchar σ).1 = σ.stdin.headD (-1) := by
  rw [getchar]
  rcases hs : σ.stdin with _ | ⟨b, rest⟩ <;> simp

theorem getchar_snd_stdin (σ : State) : (getchar σ).2.stdin = σ.stdin.tail := by
  rw [getchar]
  rcases hs : σ.stdin with _ | ⟨b, rest⟩ <;> simp [hs]

theorem getCell_setCell_ne_idx {σ : State} {sp sp' : Bool} {i j : Nat} (c : Cell)
    (h : ¬ sp = sp' ∨ ¬ i = j) :
    getCell (setCell σ (.heap sp i) c) (.heap sp' j) = getCell σ (.heap sp' j) := by
  refine getCell_setCell_ne σ _ _ _ ?_
  intro sp0 i0 hp hq
  cases hp
  cases hq
  rcases h with h | h <;> exact h rfl

theorem getchar_snd_eq (σA : State) {b : Int} {σB : State}
    (h : getchar σA = (b, σB)) : σB = (getchar σA).2 := by rw [h]

theorem getchar_snd_proj (σA : State) :
    (getchar σA).2 = { σA with stdin := σA.stdin.tail } := by
  rw [getchar]
  rcases hs : σA.stdin with _ | ⟨b, rest⟩ <;> simp only []
  · rw [show ([] : List Int).tail = [] from rfl, ← hs]
  · rfl

/-- C1 (amended): when the primitive rewriter meets `e = A(lhs, rhs)` whose
head `lhs` is a `LazyRead` cell, with six cells available (`check_rooted(6)`
does not collect) and the Church-character cache returning `cp` for the byte
`b` just consumed from standard input, it rewrites the `lhs` cell itself
(not `e`) to `S2(S2(I, K1(cp)), K1(LazyRead'))` with `LazyRead'` a fresh
`LazyRead` cell - the inner node is an `S2`, not the `A` the claim asserts -
and falls through to the `S2` case on the updated `lhs` with one byte
consumed.  The intermediate machine states and fresh pointers are named by
the equation hypotheses, which simply run the allocator. -/
theorem c1_lazyread_rewrite
    (recur : State → Ptr → Res (State × Ptr)) (f : Nat)
    (σ σB σC σD σF σG : State)
    (e prev lhs cp pk1 ps2 plr pk1b : Ptr) (ce cl clA clB : Cell)
    (b : Int) (li : Nat)
    (hce : getCell σ e = some ce) (_htag : ce.tag = .A)
    (ha : ce.arg1 = .ptr lhs)
    (hcl : getCell σ lhs = some cl) (hlt : cl.tag = .LazyRead)
    (hlhs : lhs = .heap σ.fromSp li) (hli : li < σ.nextAlloc)
    (hnx : is_exhausted σ 6 = false)
    (hg : getchar (setCell σ lhs { cl with tag := .S2 }) = (b, σB))
    (hm : make_church_char f b σB = .ok (σB, cp))
    (hC : allocCell σB ⟨none, .ptr cp, .null, .K1⟩ = (σC, pk1))
    (hD : allocCell σC ⟨none, .ptr (.atom .cI), pk1, .S2⟩ = (σD, ps2))
    (hclA : getCell σD lhs = some clA)
    (hF : allocCell (setCell σD lhs { clA with arg1 := .ptr ps2 })
      ⟨none, .ptr .null, .null, .LazyRead⟩ = (σF, plr))
    (hG : allocCell σF ⟨none, .ptr plr, .null, .K1⟩ = (σG, pk1b))
    (hclB : getCell σG lhs = some clB) :
    pevalPrim recur f σ e prev =
      pevalPrimS2 f (setCell σG lhs { clB with arg2 := pk1b }) e prev ∧
    (setCell σG lhs { clB with arg2 := pk1b }).stdin = σ.stdin.tail ∧
    lazyRewriteShape (setCell σG lhs { clB with arg2 := pk1b }) lhs cp = true := by
  -- the byte-read state
  have hBeq : σB = (getchar (setCell σ lhs { cl with tag := .S2 })).2 := getchar_snd_eq _ hg
  have hAstdin : (setCell σ lhs { cl with tag := .S2 }).stdin = σ.stdin := setCell_stdin ..
  have hBstdin : σB.stdin = σ.stdin.tail := by
    rw [hBeq, getchar_snd_stdin, hAstdin]
  have hBget : ∀ p, getCell σB p = getCell (setCell σ lhs { cl with tag := .S2 }) p := by
    intro p
    rw [hBeq, getchar]
    rcases hs : (setCell σ lhs { cl with tag := .S2 }).stdin with _ | ⟨b0, rest⟩ <;>
      simp only []
    exact getCell_withStdin ..
  have hBfrom : σB.fromSp = σ.fromSp := by
    rw [hBeq, getchar_snd_proj]
    exact setCell_fromSp ..
  have hBnext : σB.nextAlloc = σ.nextAlloc := by
    rw [hBeq, getchar_snd_proj]
    exact setCell_nextAlloc ..
  -- the first fresh cell: K1(cp)
  have hCdef : σC = (allocCell σB ⟨none, .ptr cp, .null, .K1⟩).1 := by rw [hC]
  have hpk1B : pk1 = .heap σB.fromSp σB.nextAlloc := by
    rw [show pk1 = (allocCell σB ⟨none, .ptr cp, .null, .K1⟩).2 from by rw [hC], allocCell_snd]
  have hpk1 : pk1 = .heap σ.fromSp σ.nextAlloc := by rw [hpk1B, hBfrom, hBnext]
  have hCfrom : σC.fromSp = σ.fromSp := by rw [hCdef, allocCell_fromSp, hBfrom]
  have hCnext : σC.nextAlloc = σ.nextAlloc + 1 := by rw [hCdef, allocCell_nextAlloc, hBnext]
  have hCstdin : σC.stdin = σ.stdin.tail := by rw [hCdef, allocCell_stdin, hBstdin]
  have hCold : ∀ sp i, (i < σ.nextAlloc ∨ ¬ sp = σ.fromSp) →
      getCell σC (.heap sp i) = getCell σB (.heap sp i) := by
    intro sp i hi
    rw [hCdef]
    exact getCell_allocCell_old (by rw [hBnext, hBfrom]; exact hi)
  have hCk1 : getCell σC pk1 = some ⟨none, .ptr cp, .null, .K1⟩ := by
    rw [hCdef, hpk1B]
    exact getCell_allocCell_self σB _
  -- the second fresh cell: S2(I, K1(cp))
  have hDdef : σD = (allocCell σC ⟨none, .ptr (.atom .cI), pk1, .S2⟩).1 := by rw [hD]
  have hps2C : ps2 = .heap σC.fromSp σC.nextAlloc := by
    rw [show ps2 = (allocCell σC ⟨none, .ptr (.atom .cI), pk1, .S2⟩).2 from by rw [hD],
      allocCell_snd]
  have hps2 : ps2 = .heap σ.fromSp (σ.nextAlloc + 1) := by rw [hps2C, hCfrom, hCnext]
  have hDfrom : σD.fromSp = σ.fromSp := by rw [hDdef, allocCell_fromSp, hCfrom]
  have hDnext : σD.nextAlloc = σ.nextAlloc + 2 := by rw [hDdef, allocCell_nextAlloc, hCnext]
  have hDstdin : σD.stdin = σ.stdin.tail := by rw [hDdef, allocCell_stdin, hCstdin]
  have hDold : ∀ sp i, (i < σ.nextAlloc + 1 ∨ ¬ sp = σ.fromSp) →
      getCell σD (.heap sp i) = getCell σC (.heap sp i) := by
    intro sp i hi
    rw [hDdef]
    exact getCell_allocCell_old (by rw [hCnext, hCfrom]; exact hi)
  have hDs2 : getCell σD ps2 = some ⟨none, .ptr (.atom .cI), pk1, .S2⟩ := by
    rw [hDdef, hps2C]
    exact getCell_allocCell_self σC _
  -- what the LazyRead cell looks like after the tag write
  have hclAval : clA = { cl with tag := .S2 } := by
    have h1 : getCell σD lhs = some { cl with tag := .S2 } := by
      rw [hlhs, hDold σ.fromSp li (Or.inl (by omega)), hCold σ.fromSp li (Or.inl hli),
        hBget, ← hlhs]
      rw [hlhs]
      exact getCell_setCell_self σ σ.fromSp li _
    rw [h1] at hclA
    exact (Option.some.inj hclA).symm
  -- the third and fourth fresh cells: LazyRead and K1(LazyRead)
  have hFdef : σF = (allocCell (setCell σD lhs { clA with arg1 := .ptr ps2 })
      ⟨none, .ptr .null, .null, .LazyRead⟩).1 := by rw [hF]
  have hEfrom : (setCell σD lhs { clA with arg1 := .ptr ps2 }).fromSp = σ.fromSp := by
    rw [setCell_fromSp, hDfrom]
  have hEnext : (setCell σD lhs { clA with arg1 := .ptr ps2 }).nextAlloc =
      σ.nextAlloc + 2 := by
    rw [setCell_nextAlloc, hDnext]
  have hplrE : plr = .heap σ.fromSp (σ.nextAlloc + 2) := by
    rw [show plr = (allocCell (setCell σD lhs { clA with arg1 := .ptr ps2 })
      ⟨none, .ptr .null, .null, .LazyRead⟩).2 from by rw [hF], allocCell_snd, hEfrom, hEnext]
  have hFfrom : σF.fromSp = σ.fromSp := by rw [hFdef, allocCell_fromSp, hEfrom]
  have hFnext : σF.nextAlloc = σ.nextAlloc + 3 := by rw [hFdef, allocCell_nextAlloc, hEnext]
  have hFstdin : σF.stdin = σ.stdin.tail := by
    rw [hFdef, allocCell_stdin, setCell_stdin, hDstdin]
  have hFold : ∀ sp i, (i < σ.nextAlloc + 2 ∨ ¬ sp = σ.fromSp) →
      getCell σF (.heap sp i) =
        getCell (setCell σD lhs { clA with arg1 := .ptr ps2 }) (.heap sp i) := by
    intro sp i hi
    rw [hFdef]
    exact getCell_allocCell_old (by rw [hEnext, hEfrom]; exact hi)
  have hFlr : getCell σF plr = some ⟨none, .ptr .null, .null, .LazyRead⟩ := by
    rw [hFdef, show plr = .heap (setCell σD lhs { clA with arg1 := .ptr ps2 }).fromSp
      (setCell σD lhs { clA with arg1 := .ptr ps2 }).nextAlloc from by
        rw [hEfrom, hEnext]; exact hplrE]
    exact getCell_allocCell_self _ _
  have hGdef : σG = (allocCell σF ⟨none, .ptr plr, .null, .K1⟩).1 := by rw [hG]
  have hpk1bF : pk1b = .heap σF.fromSp σF.nextAlloc := by
    rw [show pk1b = (allocCell σF ⟨none, .ptr plr, .null, .K1⟩).2 from by rw [hG],
      allocCell_snd]
  have hpk1b : pk1b = .heap σ.fromSp (σ.nextAlloc + 3) := by rw [hpk1bF, hFfrom, hFnext]
  have hGfrom : σG.fromSp = σ.fromSp := by rw [hGdef, allocCell_fromSp, hFfrom]
  have hGnext : σG.nextAlloc = σ.nextAlloc + 4 := by rw [hGdef, allocCell_nextAlloc, hFnext]
  have hGstdin : σG.stdin = σ.stdin.tail := by rw [hGdef, allocCell_stdin, hFstdin]
  have hGold : ∀ sp i, (i < σ.nextAlloc + 3 ∨ ¬ sp = σ.fromSp) →
      getCell σG (.heap sp i) = getCell σF (.heap sp i) := by
    intro sp i hi
    rw [hGdef]
    exact getCell_allocCell_old (by rw [hFnext, hFfrom]; exact hi)
  have hGk1b : getCell σG pk1b = some ⟨none, .ptr plr, .null, .K1⟩ := by
    rw [hGdef, hpk1bF]
    exact getCell_allocCell_self σF _
  -- the LazyRead cell after its arg1 write
  have hclBval : clB = ⟨cl.forward, .ptr ps2, cl.arg2, .S2⟩ := by
    have h1 : getCell σG lhs = some ⟨cl.forward, .ptr ps2, cl.arg2, .S2⟩ := by
      rw [hlhs, hGold σ.fromSp li (Or.inl (by omega)), hFold σ.fromSp li (Or.inl (by omega)),
        ← hlhs]
      rw [hlhs, hclAval]
      exact getCell_setCell_self σD σ.fromSp li _
    rw [h1] at hclB
    exact (Option.some.inj hclB).symm
  refine ⟨?_, ?_, ?_⟩
  · -- the rewrite falls through to the S2 case on the updated lhs
    rw [pevalPrim, hce]
    simp only [ha, hcl, hlt]
    have hcr : check_rooted f 6 σ e prev = .ok (σ, e, prev) := by
      rw [check_rooted]
      simp [hnx]
    rw [hcr, res_bind_ok]
    simp only [hce, ha, hcl]
    rw [hg]
    simp only []
    rw [hm, res_bind_ok]
    simp only []
    rw [hC]
    simp only []
    rw [hD]
    simp only [hclA]
    rw [hF]
    simp only []
    rw [hG]
    simp only [hclB]
  · rw [setCell_stdin, hGstdin]
  · -- the rewritten cell has the `S2(S2(I, K1(cp)), K1(LazyRead'))` shape
    have hLlhs : getCell (setCell σG lhs { clB with arg2 := pk1b }) lhs =
        some ⟨cl.forward, .ptr ps2, pk1b, .S2⟩ := by
      rw [hclBval, hlhs]
      exact getCell_setCell_self σG σ.fromSp li _
    have hs2G : getCell σG (.heap σ.fromSp (σ.nextAlloc + 1)) =
        some ⟨none, .ptr (.atom .cI), pk1, .S2⟩ := by
      rw [hGold _ _ (Or.inl (by omega)), hFold _ _ (Or.inl (by omega)),
        hlhs, getCell_setCell_ne_idx _ (Or.inr (by omega)), ← hps2]
      exact hDs2
    have hne_s2 : getCell (setCell σG lhs { clB with arg2 := pk1b }) ps2 =
        some ⟨none, .ptr (.atom .cI), pk1, .S2⟩ := by
      rw [hps2, hlhs, getCell_setCell_ne_idx _ (Or.inr (by omega))]
      exact hs2G
    have hk1G : getCell σG (.heap σ.fromSp σ.nextAlloc) =
        some ⟨none, .ptr cp, .null, .K1⟩ := by
      rw [hGold _ _ (Or.inl (by omega)), hFold _ _ (Or.inl (by omega)),
        hlhs, getCell_setCell_ne_idx _ (Or.inr (by omega)),
        hDold _ _ (Or.inl (by omega)), ← hpk1]
      exact hCk1
    have hne_k1 : getCell (setCell σG lhs { clB with arg2 := pk1b }) pk1 =
        some ⟨none, .ptr cp, .null, .K1⟩ := by
      rw [hpk1, hlhs, getCell_setCell_ne_idx _ (Or.inr (by omega))]
      exact hk1G
    have hne_k1b : getCell (setCell σG lhs { clB with arg2 := pk1b }) pk1b =
        some ⟨none, .ptr plr, .null, .K1⟩ := by
      rw [hpk1b, hlhs, getCell_setCell_ne_idx _ (Or.inr (by omega)), ← hpk1b]
      exact hGk1b
    have hlrG : getCell σG (.heap σ.fromSp (σ.nextAlloc + 2)) =
        some ⟨none, .ptr .null, .null, .LazyRead⟩ := by
      rw [hGold _ _ (Or.inl (by omega)), ← hplrE]
      exact hFlr
    have hne_lr : getCell (setCell σG lhs { clB with arg2 := pk1b }) plr =
        some ⟨none, .ptr .null, .null, .LazyRead⟩ := by
      rw [hplrE, hlhs, getCell_setCell_ne_idx _ (Or.inr (by omega))]
      exact hlrG
    rw [lazyRewriteShape, hLlhs]
    simp only [hne_s2, hne_k1, hne_k1b, hne_lr]
    simp


/-- Intermediate states of the concrete `LazyRead` forcing used to witness
C1: the tag write, the byte read, and the four allocations. -/
def c1wA : State := setCell wStateLR (.heap true 0) ⟨none, .ptr .null, .null, .S2⟩

def c1wB : State := (getchar c1wA).2

def c1wC : State := (allocCell c1wB ⟨none, .ptr (.atom .KI), .null, .K1⟩).1

def c1wD : State := (allocCell c1wC ⟨none, .ptr (.atom .cI), .heap true 2, .S2⟩).1

def c1wE : State := setCell c1wD (.heap true 0) ⟨none, .ptr (.heap true 3), .null, .S2⟩

def c1wF : State := (allocCell c1wE ⟨none, .ptr .null, .null, .LazyRead⟩).1

def c1wG : State := (allocCell c1wF ⟨none, .ptr (.heap true 4), .null, .K1⟩).1

set_option maxRecDepth 40000 in
/-- Witness for C1's amended theorem on the concrete `LazyRead` machine. -/
theorem c1_lazyread_rewrite_witness :
    pevalPrim (fun _ _ => .error .noFuel) 10 wStateLR (.heap true 1) .null =
      pevalPrimS2 10
        (setCell c1wG (.heap true 0) ⟨none, .ptr (.heap true 3), .heap true 5, .S2⟩)
        (.heap true 1) .null ∧
    (setCell c1wG (.heap true 0)
        ⟨none, .ptr (.heap true 3), .heap true 5, .S2⟩).stdin = wStateLR.stdin.tail ∧
    lazyRewriteShape
      (setCell c1wG (.heap true 0) ⟨none, .ptr (.heap true 3), .heap true 5, .S2⟩)
      (.heap true 0) (.atom .KI) = true :=
  c1_lazyread_rewrite (fun _ _ => .error .noFuel) 10 wStateLR c1wB c1wC c1wD c1wF c1wG
    (.heap true 1) .null (.heap true 0) (.atom .KI) (.heap true 2) (.heap true 3)
    (.heap true 4) (.heap true 5)
    ⟨none, .ptr (.heap true 0), .atom .cK, .A⟩ ⟨none, .ptr .null, .null, .LazyRead⟩
    ⟨none, .ptr .null, .null, .S2⟩ ⟨none, .ptr (.heap true 3), .null, .S2⟩
    0 0
    (by decide) (by decide) (by decide) (by decide) (by decide) (by decide) (by decide)
    (by decide) (by decide) (by decide) (by decide) (by decide) (by decide) (by decide)
    (by decide) (by decide)

/-! ## C6: the I/O driver loop -/

theorem copyObject_io {g g' : GcSt} {p q : Ptr}
    (h : copy_object g p = .ok (g', q)) :
    g'.base.stdout = g.base.stdout ∧ g'.base.stdin = g.base.stdin ∧
    g'.base.rootTop = g.base.rootTop := by
  rw [copy_object] at h
  split at h
  · split at h
    · exact absurd h (by simp)
    · split at h
      · cases h; exact ⟨rfl, rfl, rfl⟩
      · cases h
        exact ⟨setCell_stdout .., setCell_stdin .., setCell_rootTop ..⟩
  · cases h; exact ⟨rfl, rfl, rfl⟩

theorem copyPtrList_io : ∀ (ps : List Ptr) {g g' : GcSt} {qs : List Ptr},
    copyPtrList g ps = .ok (g', qs) →
    g'.base.stdout = g.base.stdout ∧ g'.base.stdin = g.base.stdin := by
  intro ps
  induction ps with
  | nil =>
    intro g g' qs h
    rw [copyPtrList] at h
    cases h
    exact ⟨rfl, rfl⟩
  | cons p rest ih =>
    intro g g' qs h
    rw [copyPtrList] at h
    cases h1 : copy_object g p with
    | error e => rw [h1] at h; exact absurd h (by simp [res_bind_err])
    | ok gq =>
      obtain ⟨g1, q⟩ := gq
      rw [h1, res_bind_ok] at h
      simp only [] at h
      cases h2 : copyPtrList g1 rest with
      | error e => rw [h2] at h; exact absurd h (by simp [res_bind_err])
      | ok gqs =>
        obtain ⟨g2, qs'⟩ := gqs
        rw [h2, res_bind_ok] at h
        simp only [] at h
        cases h
        obtain ⟨o1, i1, _⟩ := copyObject_io h1
        obtain ⟨o2, i2⟩ := ih h2
        exact ⟨o2.trans o1, i2.trans i1⟩

theorem gcDrain_io : ∀ (f : Nat) {g g' : GcSt},
    gcDrain f g = .ok g' →
    g'.base.stdout = g.base.stdout ∧ g'.base.stdin = g.base.stdin := by
  intro f
  induction f with
  | zero => intro g g' h; exact absurd h (by simp [gcDrain])
  | succ f ih =>
    intro g g' h
    rw [gcDrain] at h
    split at h
    · cases h; exact ⟨rfl, rfl⟩
    · rename_i j rest hw
      simp only [] at h
      split at h
      · exact absurd h (by simp)
      · rename_i c hget
        split at h
        · have hr := @ih ⟨g.base, g.dest, g.dnext, rest⟩ g' h
          exact hr
        · rename_i htag
          cases h1 : argPtr c.arg1 with
          | error e => rw [h1] at h; exact absurd h (by simp [res_bind_err])
          | ok pa =>
            rw [h1, res_bind_ok] at h
            cases h2 : copy_object { g with work := rest } pa with
            | error e => rw [h2] at h; exact absurd h (by simp [res_bind_err])
            | ok ga1 =>
              obtain ⟨g1, a1⟩ := ga1
              rw [h2, res_bind_ok] at h
              simp only [] at h
              cases h3 : copy_object { g1 with dest := g1.dest.set j { c with arg1 := .ptr a1 } }
                  c.arg2 with
              | error e => rw [h3] at h; exact absurd h (by simp [res_bind_err])
              | ok ga2 =>
                obtain ⟨g2, a2⟩ := ga2
                rw [h3, res_bind_ok] at h
                simp only [] at h
                obtain ⟨o1, i1, _⟩ := copyObject_io h2
                obtain ⟨o2, i2, _⟩ := copyObject_io h3
                obtain ⟨o3, i3⟩ := ih h
                simp only [] at o1 i1 o2 i2
                exact ⟨(o3.trans o2).trans o1, (i3.trans i2).trans i1⟩

theorem gcRun_io {f : Nat} {σ σ' : State} (h : gcRun f σ = .ok σ') :
    σ'.stdout = σ.stdout ∧ σ'.stdin = σ.stdin := by
  rw [gcRun] at h
  cases h1 : copy_object ⟨σ, σ.space (!σ.fromSp), 0, []⟩ σ.rootTop with
  | error e => rw [h1] at h; exact absurd h (by simp [res_bind_err])
  | ok g1q =>
    obtain ⟨g1, rt⟩ := g1q
    rw [h1, res_bind_ok] at h
    simp only [] at h
    cases h2 : copy_object { g1 with base := { g1.base with rootTop := rt } }
        { g1.base with rootTop := rt }.rootC2I with
    | error e => rw [h2] at h; exact absurd h (by simp [res_bind_err])
    | ok g2q =>
      obtain ⟨g2, rc⟩ := g2q
      rw [h2, res_bind_ok] at h
      simp only [] at h
      cases h3 : copyPtrList { g2 with base := { g2.base with rootC2I := rc } }
          { g2.base with rootC2I := rc }.rootStack.reverse with
      | error e => rw [h3] at h; exact absurd h (by simp [res_bind_err])
      | ok g3q =>
        obtain ⟨g3, rsRev⟩ := g3q
        rw [h3, res_bind_ok] at h
        simp only [] at h
        cases h4 : copyPtrList { g3 with base := { g3.base with rootStack := rsRev.reverse } }
            { g3.base with rootStack := rsRev.reverse }.ccc with
        | error e => rw [h4] at h; exact absurd h (by simp [res_bind_err])
        | ok g4q =>
          obtain ⟨g4, ccc'⟩ := g4q
          rw [h4, res_bind_ok] at h
          simp only [] at h
          cases h5 : gcDrain f { g4 with base := { g4.base with ccc := ccc' } } with
          | error e => rw [h5] at h; exact absurd h (by simp [res_bind_err])
          | ok g5 =>
            rw [h5, res_bind_ok] at h
            cases h
            obtain ⟨o1, i1, _⟩ := copyObject_io h1
            obtain ⟨o2, i2, _⟩ := copyObject_io h2
            obtain ⟨o3, i3⟩ := copyPtrList_io _ h3
            obtain ⟨o4, i4⟩ := copyPtrList_io _ h4
            obtain ⟨o5, i5⟩ := gcDrain_io f h5
            simp only [] at o1 i1 o2 i2 o3 i3 o4 i4 o5 i5
            have hsp : ∀ (σw : State) (sp : Bool) (t : HTree),
                (State.setSpace σw sp t).stdout = σw.stdout ∧
                (State.setSpace σw sp t).stdin = σw.stdin := by
              intro σw sp t; cases sp <;> exact ⟨rfl, rfl⟩
            refine ⟨((hsp _ _ _).1).trans ?_, ((hsp _ _ _).2).trans ?_⟩
            · show g5.base.stdout = σ.stdout
              rw [o5, o4, o3, o2, o1]
            · show g5.base.stdin = σ.stdin
              rw [i5, i4, i3, i2, i1]

theorem oom_io {f n : Nat} {σ σ' : State} (h : oom f n σ = .ok σ') :
    σ'.stdout = σ.stdout ∧ σ'.stdin = σ.stdin := by
  rw [oom] at h
  cases h1 : gcRun f σ with
  | error e => rw [h1] at h; exact absurd h (by simp [res_bind_err])
  | ok σ1 =>
    rw [h1, res_bind_ok] at h
    split at h
    · exact absurd h (by simp)
    · cases h; exact gcRun_io h1

theorem check_io {f n : Nat} {σ σ' : State} (h : check f n σ = .ok σ') :
    σ'.stdout = σ.stdout ∧ σ'.stdin = σ.stdin := by
  rw [check] at h
  split at h
  · exact oom_io h
  · cases h; exact ⟨rfl, rfl⟩

theorem allocCell_stdout (σ : State) (c : Cell) :
    (allocCell σ c).1.stdout = σ.stdout := by
  rw [allocCell]
  exact setCell_stdout ..

theorem getCell_withRootTop (X : State) (rt : Ptr) (p : Ptr) :
    getCell { X with rootTop := rt } p = getCell X p := by
  cases p with
  | null => rfl
  | atom a => rfl
  | heap sp i => cases sp <;> rfl

/-- C6: one iteration of the output loop of `main`: after the exhaustion
check, the driver builds `car = A(top, K)` and decodes it to `v`; if
`v ≥ 256` the loop terminates with exit status `v - 256`; if `v < 256` the
byte `v` is appended to standard output and the top-level root is replaced
by a fresh `A(top, KI)` cell (the list tail) before the loop continues. -/
theorem c6_io_driver (f : Nat) (σ0 σc σ1 σ2 : State) (carp : Ptr) (v : Int)
    (hchk : check f 1 σ0 = .ok σc)
    (hcar : allocCell σc ⟨none, .ptr σc.rootTop, .atom .cK, .A⟩ = (σ1, carp))
    (hdec : church2int f σ1 carp = .ok (σ2, v)) :
    (256 ≤ v → mainLoop (f+1) σ0 = .ok (σ2, v - 256)) ∧
    (v < 256 → ∀ (σ3 σ4 : State) (cdp : Ptr),
      check f 1 { σ2 with stdout := σ2.stdout ++ [v] } = .ok σ3 →
      allocCell σ3 ⟨none, .ptr σ3.rootTop, .atom .KI, .A⟩ = (σ4, cdp) →
      mainLoop (f+1) σ0 = mainLoop f { σ4 with rootTop := cdp } ∧
      ({ σ4 with rootTop := cdp } : State).stdout = σ2.stdout ++ [v] ∧
      getCell { σ4 with rootTop := cdp } cdp =
        some ⟨none, .ptr σ3.rootTop, .atom .KI, .A⟩) := by
  constructor
  · intro h256
    rw [mainLoop, hchk, res_bind_ok, hcar]
    simp only []
    rw [hdec, res_bind_ok]
    simp only []
    rw [if_pos h256]
  · intro hlt σ3 σ4 cdp hchk3 hcdr
    refine ⟨?_, ?_, ?_⟩
    · rw [mainLoop, hchk, res_bind_ok, hcar]
      simp only []
      rw [hdec, res_bind_ok]
      simp only []
      rw [if_neg (not_le.mpr hlt), hchk3, res_bind_ok, hcdr]
    · have h3 := (check_io hchk3).1
      have h4 := allocCell_stdout σ3 ⟨none, .ptr σ3.rootTop, .atom .KI, .A⟩
      rw [hcdr] at h4
      show σ4.stdout = σ2.stdout ++ [v]
      rw [h4, h3]
    · have hself := getCell_allocCell_self σ3 ⟨none, .ptr σ3.rootTop, .atom .KI, .A⟩
      rw [hcdr] at hself
      have hsnd : cdp = Ptr.heap σ3.fromSp σ3.nextAlloc := by
        have h0 := allocCell_snd σ3 ⟨none, .ptr σ3.rootTop, .atom .KI, .A⟩
        rw [hcdr] at h0
        exact h0
      rw [getCell_withRootTop, hsnd]
      exact hself

/-- A four-cell machine whose top-level root is the Church list
`K1(K1(K1(Num 300)))`: taking its head gives 300, an exit request. -/
def c6w0 : State :=
  ⟨true,
   ((((HTree.leaf.set 0 ⟨none, .ptr (.heap true 1), .null, .K1⟩).set 1
        ⟨none, .ptr (.heap true 2), .null, .K1⟩).set 2
        ⟨none, .ptr (.heap true 3), .null, .K1⟩).set 3
        ⟨none, .num 300, .null, .Num⟩),
   .leaf, 4, .heap true 0, .null, [], [], [], []⟩

/-- The machine and pointer after building the car cell on `c6w0`. -/
def c6w1p : State × Ptr := allocCell c6w0 ⟨none, .ptr c6w0.rootTop, .atom .cK, .A⟩

/-- The machine and decoded value after `church2int` on the car. -/
def c6w2p : State × Int := (church2int 60 c6w1p.1 c6w1p.2).toOption.getD (c6w0, 0)

set_option maxRecDepth 40000 in
theorem c6_io_driver_witness :
    mainLoop 61 c6w0 = .ok (c6w2p.1, 44) := by
  have h := (@c6_io_driver 60 c6w0 c6w0 c6w1p.1 c6w2p.1 c6w1p.2 c6w2p.2
    (by decide) (by decide) (by decide)).1 (by decide)
  have hv : c6w2p.2 - 256 = 44 := by decide
  rw [hv] at h
  exact h

/-! ## C5: the garbage-collector postcondition -/

/-- A pointer that is null, a static atom, or a live slot of the currently
active arena. -/
def ptrOkN (σ : State) : Ptr → Bool
  | .null => true
  | .atom _ => true
  | .heap sp i => sp == σ.fromSp && decide (i < σ.nextAlloc)

/-- An `arg1` union member holding a pointer that satisfies `ptrOkN`. -/
def argOkN (σ : State) : Arg → Bool
  | .ptr p => ptrOkN σ p
  | .num _ => false

/-- A cell that is a number, or whose two argument pointers satisfy
`ptrOkN`. -/
def cellOkN (σ : State) (c : Cell) : Bool :=
  c.tag == .Num || (argOkN σ c.arg1 && ptrOkN σ c.arg2)

/-- The amended collector postcondition: every root-table slot and cache
entry is null, an atom, or a live new-arena slot, and every live new-arena
cell is a number or has `ptrOkN` arguments. -/
def gcPost (σ : State) : Bool :=
  ptrOkN σ σ.rootTop && ptrOkN σ σ.rootC2I &&
  σ.rootStack.all (ptrOkN σ) && σ.ccc.all (ptrOkN σ) &&
  (List.range σ.nextAlloc).all (fun i =>
    match getCell σ (.heap σ.fromSp i) with
    | none => true
    | some c => cellOkN σ c)

/-- The claim as stated: null is neither an arena slot nor a static atom,
so it is not allowed anywhere. -/
def specPtrOk (σ : State) : Ptr → Bool
  | .null => false
  | .atom _ => true
  | .heap sp i => sp == σ.fromSp && decide (i < σ.nextAlloc)

/-- The collector postcondition as claimed, with no allowance for null
root slots, cache slots, or cell arguments. -/
def specGcPost (σ : State) : Bool :=
  specPtrOk σ σ.rootTop && specPtrOk σ σ.rootC2I &&
  σ.rootStack.all (specPtrOk σ) && σ.ccc.all (specPtrOk σ) &&
  (List.range σ.nextAlloc).all (fun i =>
    match getCell σ (.heap σ.fromSp i) with
    | none => true
    | some c => c.tag == .Num ||
        ((match c.arg1 with | .ptr p => specPtrOk σ p | .num _ => false) &&
         specPtrOk σ c.arg2))

/-- The machine produced by collecting the startup state, whose top-level
root slot and upper cache slots are still null. -/
def c5cex : State := (gcRun 5 blankState).toOption.getD blankState

set_option maxRecDepth 40000 in
/-- C5 counterexample: running the collector on the startup state (a state
the program reaches whenever the cache-preinitialization loop triggers a
collection, and, for the `church2int` slot, after every decoding step)
leaves null in the root table and in the Church-character cache; a null
slot points neither into the newly active arena nor at a static atom, so
the postcondition as claimed is false. -/
theorem c5_counterexample :
    gcRun 5 blankState = .ok c5cex ∧ specGcPost c5cex = false := by
  constructor <;> decide

/-- A pointer the collector may meet in a root slot or in a live cell
argument while `σb` is the (evolving) from-space state: null, a static
atom, or a from-space slot inside the arena bounds holding a cell. -/
def srcPtrOk (σb : State) (p : Ptr) : Prop :=
  p = .null ∨ (∃ a, p = .atom a) ∨
  (∃ i, p = .heap σb.fromSp i ∧ i < heapCapacity ∧ ∃ c, getCell σb p = some c)

/-- A cell whose arguments the scan loop can forward: a number, or a cell
whose `arg1` holds a `srcPtrOk` pointer and whose `arg2` is `srcPtrOk`. -/
def srcArgsOk (σb : State) (c : Cell) : Prop :=
  c.tag = .Num ∨ ((∃ p, c.arg1 = .ptr p ∧ srcPtrOk σb p) ∧ srcPtrOk σb c.arg2)

/-- A pointer already forwarded with respect to old space `o` and copy
frontier `d`: null, a static atom, or a to-space slot below the frontier. -/
def dstPtrOk (o : Bool) (d : Nat) (p : Ptr) : Prop :=
  p = .null ∨ (∃ a, p = .atom a) ∨ (∃ i, p = .heap (!o) i ∧ i < d)

/-- A scanned cell: a number, or a cell with forwarded arguments. -/
def dstArgsOk (o : Bool) (d : Nat) (c : Cell) : Prop :=
  c.tag = .Num ∨ ((∃ p, c.arg1 = .ptr p ∧ dstPtrOk o d p) ∧ dstPtrOk o d c.arg2)

/-- The Cheney invariant carried through the collection, with an exemption
set `ex` of destination indices that are mid-update in the scan loop. -/
structure GcInvE (g : GcSt) (ex : Nat → Prop) : Prop where
  srcCells : ∀ i c, getCell g.base (.heap g.base.fromSp i) = some c →
    srcArgsOk g.base c ∧
    (c.forward = none ∨ ∃ k, c.forward = some (.heap (!g.base.fromSp) k) ∧ k < g.dnext)
  workBound : ∀ j ∈ g.work, j < g.dnext
  workNodup : g.work.Nodup
  workCells : ∀ j ∈ g.work, ∃ c, g.dest.get j = some c ∧ srcArgsOk g.base c
  scanned : ∀ j, j < g.dnext → j ∉ g.work → ¬ ex j →
    ∃ c, g.dest.get j = some c ∧ dstArgsOk g.base.fromSp g.dnext c

/-- The relation between a collector state and any later one produced by
`copy_object`, `copyPtrList` or the scan loop. -/
structure GcStep (g g' : GcSt) : Prop where
  dmono : g.dnext ≤ g'.dnext
  fromSpEq : g'.base.fromSp = g.base.fromSp
  srcMono : ∀ r, srcPtrOk g.base r → srcPtrOk g'.base r
  workSub : ∀ x ∈ g'.work, x ∈ g.work ∨ g.dnext ≤ x
  rootTopEq : g'.base.rootTop = g.base.rootTop
  rootC2IEq : g'.base.rootC2I = g.base.rootC2I
  rootStackEq : g'.base.rootStack = g.base.rootStack
  cccEq : g'.base.ccc = g.base.ccc

theorem gcStep_id (g : GcSt) : GcStep g g :=
  ⟨Nat.le_refl _, Eq.refl _, fun _ h => h, fun _ hx => Or.inl hx,
   Eq.refl _, Eq.refl _, Eq.refl _, Eq.refl _⟩

theorem GcStep.trans {g1 g2 g3 : GcSt} (a : GcStep g1 g2) (b : GcStep g2 g3) :
    GcStep g1 g3 := by
  refine ⟨Nat.le_trans a.dmono b.dmono, b.fromSpEq.trans a.fromSpEq,
    fun r h => b.srcMono r (a.srcMono r h), ?_,
    b.rootTopEq.trans a.rootTopEq, b.rootC2IEq.trans a.rootC2IEq,
    b.rootStackEq.trans a.rootStackEq, b.cccEq.trans a.cccEq⟩
  intro x hx
  rcases b.workSub x hx with h | h
  · rcases a.workSub x h with h2 | h2
    · exact Or.inl h2
    · exact Or.inr h2
  · exact Or.inr (Nat.le_trans a.dmono h)

theorem GcInvE.weaken {g : GcSt} {ex ex' : Nat → Prop} (h : GcInvE g ex)
    (hss : ∀ j, ex j → ex' j) : GcInvE g ex' :=
  ⟨h.srcCells, h.workBound, h.workNodup, h.workCells,
   fun j hj hw hx => h.scanned j hj hw (fun he => hx (hss j he))⟩

theorem srcPtrOk_setCell (σb : State) (w : Ptr) (cw : Cell) {p : Ptr}
    (h : srcPtrOk σb p) : srcPtrOk (setCell σb w cw) p := by
  rcases h with h | ⟨a, h⟩ | ⟨i, hp, hi, c0, hc⟩
  · exact Or.inl h
  · exact Or.inr (Or.inl ⟨a, h⟩)
  · refine Or.inr (Or.inr ⟨i, ?_, hi, ?_⟩)
    · rw [setCell_fromSp]
      exact hp
    · by_cases hw : w = p
      · subst hw
        rw [hp, getCell_setCell_self]
        exact ⟨cw, rfl⟩
      · have hne : ∀ sp j, w = .heap sp j → p ≠ .heap sp j := by
          intro sp j hws hps
          exact hw (hws.trans hps.symm)
        rw [getCell_setCell_ne σb w p cw hne]
        exact ⟨c0, hc⟩

theorem srcArgsOk_setCell (σb : State) (w : Ptr) (cw : Cell) {c : Cell}
    (h : srcArgsOk σb c) : srcArgsOk (setCell σb w cw) c := by
  rcases h with h | ⟨⟨p, hp, hps⟩, h2⟩
  · exact Or.inl h
  · exact Or.inr ⟨⟨p, hp, srcPtrOk_setCell σb w cw hps⟩, srcPtrOk_setCell σb w cw h2⟩

theorem dstPtrOk_mono {o : Bool} {d d' : Nat} {p : Ptr} (hd : d ≤ d')
    (h : dstPtrOk o d p) : dstPtrOk o d' p := by
  rcases h with h | h | ⟨i, hp, hi⟩
  · exact Or.inl h
  · exact Or.inr (Or.inl h)
  · exact Or.inr (Or.inr ⟨i, hp, Nat.lt_of_lt_of_le hi hd⟩)

theorem dstArgsOk_mono {o : Bool} {d d' : Nat} {c : Cell} (hd : d ≤ d')
    (h : dstArgsOk o d c) : dstArgsOk o d' c := by
  rcases h with h | ⟨⟨p, hp, hps⟩, h2⟩
  · exact Or.inl h
  · exact Or.inr ⟨⟨p, hp, dstPtrOk_mono hd hps⟩, dstPtrOk_mono hd h2⟩

theorem copy_inv {g g' : GcSt} {p q : Ptr} {ex : Nat → Prop}
    (hinv : GcInvE g ex) (hp : srcPtrOk g.base p)
    (h : copy_object g p = .ok (g', q)) :
    GcInvE g' ex ∧ GcStep g g' ∧ dstPtrOk g.base.fromSp g'.dnext q := by
  rw [copy_object] at h
  split at h
  · rename_i hin
    rcases hp with hN | ⟨a, hA⟩ | ⟨i, hP, hi, c0, hc0⟩
    · rw [hN] at hin
      simp [in_arena] at hin
    · rw [hA] at hin
      simp [in_arena] at hin
    · subst hP
      split at h
      · exact absurd h (by simp)
      · rename_i c hget
        split at h
        · rename_i fq hfwd
          cases h
          refine ⟨hinv, gcStep_id g, ?_⟩
          rcases (hinv.srcCells i c hget).2 with hnone | ⟨k, hk, hklt⟩
          · rw [hfwd] at hnone
            exact absurd hnone (by simp)
          · rw [hfwd] at hk
            refine Or.inr (Or.inr ⟨k, ?_, hklt⟩)
            exact Option.some.inj hk
        · rename_i hfwd
          cases h
          have hfs : (setCell g.base (.heap g.base.fromSp i)
              { c with forward := some (.heap (!g.base.fromSp) g.dnext) }).fromSp
              = g.base.fromSp := setCell_fromSp ..
          have hargs : srcArgsOk g.base c := (hinv.srcCells i c hget).1
          refine ⟨⟨?_, ?_, ?_, ?_, ?_⟩, ⟨Nat.le_succ _, hfs, ?_, ?_,
            setCell_rootTop .., setCell_rootC2I .., setCell_rootStack ..,
            setCell_ccc ..⟩, ?_⟩
          · intro i' c' hc'
            simp only [] at hc' ⊢
            rw [hfs] at hc' ⊢
            by_cases hii : i' = i
            · subst hii
              rw [getCell_setCell_self] at hc'
              cases Option.some.inj hc'
              constructor
              · exact srcArgsOk_setCell g.base _ _ hargs
              · exact Or.inr ⟨g.dnext, Eq.refl _, Nat.lt_succ_self _⟩
            · rw [getCell_setCell_ne_idx _ (Or.inr (fun hc => hii hc.symm))] at hc'
              obtain ⟨ha, hf⟩ := hinv.srcCells i' c' hc'
              refine ⟨srcArgsOk_setCell g.base _ _ ha, ?_⟩
              rcases hf with hf | ⟨k, hk, hklt⟩
              · exact Or.inl hf
              · exact Or.inr ⟨k, hk, Nat.lt_succ_of_lt hklt⟩
          · intro j hj
            simp only [] at hj
            rcases List.mem_cons.mp hj with hj | hj
            · subst hj
              exact Nat.lt_succ_self _
            · exact Nat.lt_succ_of_lt (hinv.workBound j hj)
          · simp only []
            refine List.nodup_cons.mpr ⟨?_, hinv.workNodup⟩
            intro hm
            exact Nat.lt_irrefl _ (hinv.workBound _ hm)
          · intro j hj
            simp only [] at hj ⊢
            rcases List.mem_cons.mp hj with hj | hj
            · subst hj
              rw [HTree.get_set_self]
              exact ⟨c, Eq.refl _, srcArgsOk_setCell g.base _ _ hargs⟩
            · have hjlt := hinv.workBound j hj
              rw [HTree.get_set_ne _ _ _ _ (Nat.ne_of_gt hjlt)]
              obtain ⟨c'', hcg, hca⟩ := hinv.workCells j hj
              exact ⟨c'', hcg, srcArgsOk_setCell g.base _ _ hca⟩
          · intro j hj hw hx
            simp only [] at hj hw ⊢
            rw [hfs]
            have hj' : j ≠ g.dnext := fun hc => hw (hc ▸ List.mem_cons_self _ _)
            have hjlt : j < g.dnext := by
              rcases Nat.lt_succ_iff_lt_or_eq.mp hj with h | h
              · exact h
              · exact absurd h hj'
            have hw' : j ∉ g.work := fun hc => hw (List.mem_cons_of_mem _ hc)
            obtain ⟨c'', hcg, hca⟩ := hinv.scanned j hjlt hw' hx
            rw [HTree.get_set_ne _ _ _ _ (Nat.ne_of_gt hjlt)]
            exact ⟨c'', hcg, dstArgsOk_mono (Nat.le_succ _) hca⟩
          · intro r hr
            exact srcPtrOk_setCell g.base _ _ hr
          · intro x hx
            simp only [] at hx
            rcases List.mem_cons.mp hx with hx | hx
            · exact Or.inr (Nat.le_of_eq hx.symm)
            · exact Or.inl hx
          · exact Or.inr (Or.inr ⟨g.dnext, Eq.refl _, Nat.lt_succ_self _⟩)
  · rename_i hin
    cases h
    refine ⟨hinv, gcStep_id g, ?_⟩
    rcases hp with hN | ⟨a, hA⟩ | ⟨i, hP, hi, c0, hc0⟩
    · exact Or.inl hN
    · exact Or.inr (Or.inl ⟨a, hA⟩)
    · exfalso
      apply hin
      rw [hP]
      simp [in_arena]
      exact Nat.lt_of_lt_of_le hi (Nat.le_refl _)

theorem copyList_inv : ∀ (ps : List Ptr) {g g' : GcSt} {qs : List Ptr} {ex : Nat → Prop},
    GcInvE g ex → (∀ p ∈ ps, srcPtrOk g.base p) →
    copyPtrList g ps = .ok (g', qs) →
    GcInvE g' ex ∧ GcStep g g' ∧ ∀ q ∈ qs, dstPtrOk g.base.fromSp g'.dnext q := by
  intro ps
  induction ps with
  | nil =>
    intro g g' qs ex hinv hps h
    rw [copyPtrList] at h
    cases h
    exact ⟨hinv, gcStep_id g, fun q hq => absurd hq (List.not_mem_nil q)⟩
  | cons p rest ih =>
    intro g g' qs ex hinv hps h
    rw [copyPtrList] at h
    cases h1 : copy_object g p with
    | error e => rw [h1] at h; exact absurd h (by simp [res_bind_err])
    | ok gq =>
      obtain ⟨g1, q1⟩ := gq
      rw [h1, res_bind_ok] at h
      simp only [] at h
      cases h2 : copyPtrList g1 rest with
      | error e => rw [h2] at h; exact absurd h (by simp [res_bind_err])
      | ok gqs =>
        obtain ⟨g2, qs2⟩ := gqs
        rw [h2, res_bind_ok] at h
        simp only [] at h
        cases h
        obtain ⟨hinv1, hstep1, hq1⟩ := copy_inv hinv (hps p (List.mem_cons_self _ _)) h1
        have hps1 : ∀ p' ∈ rest, srcPtrOk g1.base p' :=
          fun p' hp' => hstep1.srcMono p' (hps p' (List.mem_cons_of_mem _ hp'))
        obtain ⟨hinv2, hstep2, hq2⟩ := ih hinv1 hps1 h2
        refine ⟨hinv2, hstep1.trans hstep2, ?_⟩
        intro q hq
        rcases List.mem_cons.mp hq with hq | hq
        · subst hq
          exact dstPtrOk_mono hstep2.dmono hq1
        · have hres := hq2 q hq
          rw [hstep1.fromSpEq] at hres
          exact hres

theorem drain_inv : ∀ (f : Nat) {g g' : GcSt},
    GcInvE g (fun _ => False) → gcDrain f g = .ok g' →
    GcInvE g' (fun _ => False) ∧ GcStep g g' ∧ g'.work = [] := by
  intro f
  induction f with
  | zero => intro g g' _ h; exact absurd h (by simp [gcDrain])
  | succ f ih =>
    intro g g' hinv h
    rw [gcDrain] at h
    split at h
    · rename_i hwork
      cases h
      exact ⟨hinv, gcStep_id g, hwork⟩
    · rename_i j rest hw
      simp only [] at h
      have hjmem : j ∈ g.work := by
        rw [hw]
        exact List.mem_cons_self _ _
      have hjlt : j < g.dnext := hinv.workBound j hjmem
      have hjrest : j ∉ rest := by
        have hnd := hinv.workNodup
        rw [hw] at hnd
        exact (List.nodup_cons.mp hnd).1
      have hndrest : rest.Nodup := by
        have hnd := hinv.workNodup
        rw [hw] at hnd
        exact (List.nodup_cons.mp hnd).2
      have hrestmem : ∀ x ∈ rest, x ∈ g.work := by
        intro x hx
        rw [hw]
        exact List.mem_cons_of_mem _ hx
      have hstep01 : GcStep g { g with work := rest } :=
        ⟨Nat.le_refl _, Eq.refl _, fun _ hr => hr,
         fun x hx => Or.inl (hrestmem x hx), Eq.refl _, Eq.refl _, Eq.refl _, Eq.refl _⟩
      split at h
      · exact absurd h (by simp)
      · rename_i c hget
        have hget' : g.dest.get j = some c := hget
        have hargs : srcArgsOk g.base c := by
          obtain ⟨cw, hcw, hcwargs⟩ := hinv.workCells j hjmem
          rw [hget'] at hcw
          cases Option.some.inj hcw
          exact hcwargs
        split at h
        · rename_i hnum
          have hinv1 : GcInvE { g with work := rest } (fun _ => False) := by
            refine ⟨hinv.srcCells, fun j' hj' => hinv.workBound j' (hrestmem j' hj'),
              hndrest, fun j' hj' => hinv.workCells j' (hrestmem j' hj'), ?_⟩
            intro j' hj'lt hj'w hx
            by_cases hjj : j' = j
            · subst hjj
              exact ⟨c, hget', Or.inl hnum⟩
            · refine hinv.scanned j' hj'lt ?_ hx
              rw [hw]
              intro hmem
              rcases List.mem_cons.mp hmem with hmem | hmem
              · exact hjj hmem
              · exact hj'w hmem
          obtain ⟨hinvF, hstepF, hwF⟩ := ih hinv1 h
          exact ⟨hinvF, hstep01.trans hstepF, hwF⟩
        · rename_i hnum
          rcases hargs with hbad | ⟨⟨p1, hp1, hp1ok⟩, h2ok⟩
          · exact absurd hbad hnum
          have hinv1 : GcInvE { g with work := rest } (fun x => x = j) := by
            refine ⟨hinv.srcCells, fun j' hj' => hinv.workBound j' (hrestmem j' hj'),
              hndrest, fun j' hj' => hinv.workCells j' (hrestmem j' hj'), ?_⟩
            intro j' hj'lt hj'w hx
            refine hinv.scanned j' hj'lt ?_ not_false
            rw [hw]
            intro hmem
            rcases List.mem_cons.mp hmem with hmem | hmem
            · exact hx hmem
            · exact hj'w hmem
          cases h1 : argPtr c.arg1 with
          | error e => rw [h1] at h; exact absurd h (by simp [res_bind_err])
          | ok pa =>
            rw [h1, res_bind_ok] at h
            rw [hp1] at h1
            simp only [argPtr] at h1
            cases h1
            cases h2 : copy_object { g with work := rest } p1 with
            | error e => rw [h2] at h; exact absurd h (by simp [res_bind_err])
            | ok ga1 =>
              obtain ⟨gA, a1⟩ := ga1
              rw [h2, res_bind_ok] at h
              simp only [] at h
              obtain ⟨hinv2, hstep12, ha1⟩ := copy_inv hinv1 hp1ok h2
              have hjA : j ∉ gA.work := by
                intro hmem
                rcases hstep12.workSub j hmem with hmem' | hge
                · exact hjrest hmem'
                · exact Nat.lt_irrefl _ (Nat.lt_of_lt_of_le hjlt hge)
              have hinv3 : GcInvE { gA with dest := gA.dest.set j { c with arg1 := .ptr a1 } }
                  (fun x => x = j) := by
                refine ⟨hinv2.srcCells, hinv2.workBound, hinv2.workNodup, ?_, ?_⟩
                · intro j' hj'
                  have hne : j' ≠ j := fun hc => hjA (hc ▸ hj')
                  obtain ⟨c2, hc2, hargs2⟩ := hinv2.workCells j' hj'
                  refine ⟨c2, ?_, hargs2⟩
                  show (gA.dest.set j { c with arg1 := .ptr a1 }).get j' = some c2
                  rw [HTree.get_set_ne _ _ _ _ (fun hc => hne hc.symm)]
                  exact hc2
                · intro j' hj'lt hj'w hx
                  obtain ⟨c2, hc2, hargs2⟩ := hinv2.scanned j' hj'lt hj'w hx
                  refine ⟨c2, ?_, hargs2⟩
                  show (gA.dest.set j { c with arg1 := .ptr a1 }).get j' = some c2
                  rw [HTree.get_set_ne _ _ _ _ (fun hc => hx hc.symm)]
                  exact hc2
              have hstepA3 : GcStep gA { gA with dest := gA.dest.set j { c with arg1 := .ptr a1 } } :=
                ⟨Nat.le_refl _, Eq.refl _, fun _ hr => hr, fun _ hx => Or.inl hx,
                 Eq.refl _, Eq.refl _, Eq.refl _, Eq.refl _⟩
              have hsrc2 : srcPtrOk gA.base c.arg2 := hstep12.srcMono _ h2ok
              cases h3 : copy_object { gA with dest := gA.dest.set j { c with arg1 := .ptr a1 } }
                  c.arg2 with
              | error e => rw [h3] at h; exact absurd h (by simp [res_bind_err])
              | ok ga2 =>
                obtain ⟨gB, a2⟩ := ga2
                rw [h3, res_bind_ok] at h
                simp only [] at h
                obtain ⟨hinv4, hstep34, ha2⟩ := copy_inv hinv3 hsrc2 h3
                have hjB : j ∉ gB.work := by
                  intro hmem
                  rcases hstep34.workSub j hmem with hmem' | hge
                  · exact hjA hmem'
                  · exact Nat.lt_irrefl _
                      (Nat.lt_of_lt_of_le (Nat.lt_of_lt_of_le hjlt hstep12.dmono) hge)
                have hfsA : gA.base.fromSp = g.base.fromSp := hstep12.fromSpEq
                have hfsB : gB.base.fromSp = g.base.fromSp := hstep34.fromSpEq.trans hfsA
                have ha1g : dstPtrOk g.base.fromSp gA.dnext a1 := ha1
                have ha2g : dstPtrOk g.base.fromSp gB.dnext a2 := by
                  rw [← hfsA]
                  exact ha2
                have hinv5 : GcInvE
                    { gB with dest := gB.dest.set j { c with arg1 := .ptr a1, arg2 := a2 } }
                    (fun _ => False) := by
                  refine ⟨hinv4.srcCells, hinv4.workBound, hinv4.workNodup, ?_, ?_⟩
                  · intro j' hj'
                    have hne : j' ≠ j := fun hc => hjB (hc ▸ hj')
                    obtain ⟨c2, hc2, hargs2⟩ := hinv4.workCells j' hj'
                    refine ⟨c2, ?_, hargs2⟩
                    show (gB.dest.set j { c with arg1 := .ptr a1, arg2 := a2 }).get j' = some c2
                    rw [HTree.get_set_ne _ _ _ _ (fun hc => hne hc.symm)]
                    exact hc2
                  · intro j' hj'lt hj'w hx
                    by_cases hjj : j' = j
                    · subst hjj
                      refine ⟨{ c with arg1 := .ptr a1, arg2 := a2 }, ?_, ?_⟩
                      · show (gB.dest.set j' { c with arg1 := .ptr a1, arg2 := a2 }).get j'
                            = some { c with arg1 := .ptr a1, arg2 := a2 }
                        exact HTree.get_set_self ..
                      · refine Or.inr ⟨⟨a1, Eq.refl _, ?_⟩, ?_⟩
                        · show dstPtrOk gB.base.fromSp gB.dnext a1
                          rw [hfsB]
                          exact dstPtrOk_mono hstep34.dmono ha1g
                        · show dstPtrOk gB.base.fromSp gB.dnext a2
                          rw [hfsB]
                          exact ha2g
                    · obtain ⟨c2, hc2, hargs2⟩ := hinv4.scanned j' hj'lt hj'w hjj
                      refine ⟨c2, ?_, hargs2⟩
                      show (gB.dest.set j { c with arg1 := .ptr a1, arg2 := a2 }).get j' = some c2
                      rw [HTree.get_set_ne _ _ _ _ (fun hc => hjj hc.symm)]
                      exact hc2
                have hstepB5 : GcStep gB
                    { gB with dest := gB.dest.set j { c with arg1 := .ptr a1, arg2 := a2 } } :=
                  ⟨Nat.le_refl _, Eq.refl _, fun _ hr => hr, fun _ hx => Or.inl hx,
                   Eq.refl _, Eq.refl _, Eq.refl _, Eq.refl _⟩
                obtain ⟨hinvF, hstepF, hwF⟩ := ih hinv5 h
                exact ⟨hinvF,
                  ((((hstep01.trans hstep12).trans hstepA3).trans hstep34).trans hstepB5).trans
                    hstepF, hwF⟩

theorem getCell_withRootC2I (X : State) (rc : Ptr) (p : Ptr) :
    getCell { X with rootC2I := rc } p = getCell X p := by
  cases p with
  | null => rfl
  | atom a => rfl
  | heap sp i => cases sp <;> rfl

theorem getCell_withRootStack (X : State) (rs : List Ptr) (p : Ptr) :
    getCell { X with rootStack := rs } p = getCell X p := by
  cases p with
  | null => rfl
  | atom a => rfl
  | heap sp i => cases sp <;> rfl

theorem getCell_withCcc (X : State) (cs : List Ptr) (p : Ptr) :
    getCell { X with ccc := cs } p = getCell X p := by
  cases p with
  | null => rfl
  | atom a => rfl
  | heap sp i => cases sp <;> rfl

theorem setSpace_fromSp (σ : State) (sp : Bool) (t : HTree) :
    (State.setSpace σ sp t).fromSp = σ.fromSp := by cases sp <;> rfl

theorem setSpace_nextAlloc (σ : State) (sp : Bool) (t : HTree) :
    (State.setSpace σ sp t).nextAlloc = σ.nextAlloc := by cases sp <;> rfl

theorem setSpace_rootTop (σ : State) (sp : Bool) (t : HTree) :
    (State.setSpace σ sp t).rootTop = σ.rootTop := by cases sp <;> rfl

theorem setSpace_rootC2I (σ : State) (sp : Bool) (t : HTree) :
    (State.setSpace σ sp t).rootC2I = σ.rootC2I := by cases sp <;> rfl

theorem setSpace_rootStack (σ : State) (sp : Bool) (t : HTree) :
    (State.setSpace σ sp t).rootStack = σ.rootStack := by cases sp <;> rfl

theorem setSpace_ccc (σ : State) (sp : Bool) (t : HTree) :
    (State.setSpace σ sp t).ccc = σ.ccc := by cases sp <;> rfl

theorem srcPtrOk_congr {σ1 σ2 : State} (hf : σ2.fromSp = σ1.fromSp)
    (hg : ∀ p, getCell σ2 p = getCell σ1 p) {p : Ptr} (h : srcPtrOk σ1 p) :
    srcPtrOk σ2 p := by
  rcases h with h | ⟨a, h⟩ | ⟨i, hp, hi, c0, hc⟩
  · exact Or.inl h
  · exact Or.inr (Or.inl ⟨a, h⟩)
  · refine Or.inr (Or.inr ⟨i, ?_, hi, ?_⟩)
    · rw [hf]
      exact hp
    · rw [hg]
      exact ⟨c0, hc⟩

theorem srcArgsOk_congr {σ1 σ2 : State} (hf : σ2.fromSp = σ1.fromSp)
    (hg : ∀ p, getCell σ2 p = getCell σ1 p) {c : Cell} (h : srcArgsOk σ1 c) :
    srcArgsOk σ2 c := by
  rcases h with h | ⟨⟨p, hp, hps⟩, h2⟩
  · exact Or.inl h
  · exact Or.inr ⟨⟨p, hp, srcPtrOk_congr hf hg hps⟩, srcPtrOk_congr hf hg h2⟩

theorem GcInvE_congrBase {g : GcSt} {ex : Nat → Prop} (h : GcInvE g ex) (σ2 : State)
    (hf : σ2.fromSp = g.base.fromSp) (hg : ∀ p, getCell σ2 p = getCell g.base p) :
    GcInvE ⟨σ2, g.dest, g.dnext, g.work⟩ ex := by
  refine ⟨?_, h.workBound, h.workNodup, ?_, ?_⟩
  · intro i c hc
    have hc' : getCell σ2 (.heap σ2.fromSp i) = some c := hc
    rw [hf, hg] at hc'
    obtain ⟨ha, hfw⟩ := h.srcCells i c hc'
    refine ⟨srcArgsOk_congr hf hg ha, ?_⟩
    show c.forward = none ∨ ∃ k, c.forward = some (.heap (!σ2.fromSp) k) ∧ k < g.dnext
    rw [hf]
    exact hfw
  · intro j hj
    obtain ⟨c, hc, ha⟩ := h.workCells j hj
    exact ⟨c, hc, srcArgsOk_congr hf hg ha⟩
  · intro j h1 h2 h3
    obtain ⟨c, hc, ha⟩ := h.scanned j h1 h2 h3
    refine ⟨c, hc, ?_⟩
    show dstArgsOk σ2.fromSp g.dnext c
    rw [hf]
    exact ha

theorem dstPtrOk_to_ptrOkN {σ2 : State} {o : Bool} {d : Nat} {p : Ptr}
    (h : dstPtrOk o d p) (hf : σ2.fromSp = !o) (hn : d ≤ σ2.nextAlloc) :
    ptrOkN σ2 p = true := by
  rcases h with h | ⟨a, h⟩ | ⟨i, h, hi⟩ <;> subst h
  · rfl
  · rfl
  · show ((!o) == σ2.fromSp && decide (i < σ2.nextAlloc)) = true
    rw [hf]
    simp [Nat.lt_of_lt_of_le hi hn]

theorem dstArgsOk_to_cellOkN {σ2 : State} {o : Bool} {d : Nat} {c : Cell}
    (h : dstArgsOk o d c) (hf : σ2.fromSp = !o) (hn : d ≤ σ2.nextAlloc) :
    cellOkN σ2 c = true := by
  rcases h with h | ⟨⟨p, hp, hpd⟩, h2⟩
  · rw [cellOkN, h]
    simp
  · rw [cellOkN, hp]
    show (c.tag == .Num || (argOkN σ2 (.ptr p) && ptrOkN σ2 c.arg2)) = true
    have h1 : argOkN σ2 (.ptr p) = true := dstPtrOk_to_ptrOkN hpd hf hn
    have h2' : ptrOkN σ2 c.arg2 = true := dstPtrOk_to_ptrOkN h2 hf hn
    rw [h1, h2']
    simp

theorem gcPost_intro (σ2 : State)
    (h1 : ptrOkN σ2 σ2.rootTop = true) (h2 : ptrOkN σ2 σ2.rootC2I = true)
    (h3 : ∀ p ∈ σ2.rootStack, ptrOkN σ2 p = true)
    (h4 : ∀ p ∈ σ2.ccc, ptrOkN σ2 p = true)
    (h5 : ∀ i, i < σ2.nextAlloc → ∀ c, getCell σ2 (.heap σ2.fromSp i) = some c →
        cellOkN σ2 c = true) :
    gcPost σ2 = true := by
  rw [gcPost]
  simp only [Bool.and_eq_true, List.all_eq_true]
  refine ⟨⟨⟨⟨h1, h2⟩, h3⟩, h4⟩, ?_⟩
  intro i hi
  have hilt : i < σ2.nextAlloc := List.mem_range.mp hi
  rcases hget : getCell σ2 (.heap σ2.fromSp i) with _ | c
  · rfl
  · exact h5 i hilt c hget

/-- C5 (amended): after a successful collection of a machine whose root
slots, cache entries and live cells are well formed, every root-table slot
and every Church-character-cache entry is null, a static atom, or a pointer
into the live prefix of the newly active arena, and every live new-arena
cell whose tag is not `Num` likewise has null/atom/new-arena argument
pointers.  (The claim as stated omits null, which does occur.) -/
theorem c5_gc_safety (f : Nat) (σ σ' : State)
    (hTop : srcPtrOk σ σ.rootTop) (hC2I : srcPtrOk σ σ.rootC2I)
    (hStk : ∀ p ∈ σ.rootStack, srcPtrOk σ p)
    (hCcc : ∀ p ∈ σ.ccc, srcPtrOk σ p)
    (hCells : ∀ i c, getCell σ (.heap σ.fromSp i) = some c →
      srcArgsOk σ c ∧ c.forward = none)
    (hgc : gcRun f σ = .ok σ') :
    gcPost σ' = true := by
  rw [gcRun] at hgc
  cases h1 : copy_object ⟨σ, σ.space (!σ.fromSp), 0, []⟩ σ.rootTop with
  | error e => rw [h1] at hgc; exact absurd hgc (by simp [res_bind_err])
  | ok g1q =>
    obtain ⟨g1, rt⟩ := g1q
    rw [h1, res_bind_ok] at hgc
    simp only [] at hgc
    cases h2 : copy_object { g1 with base := { g1.base with rootTop := rt } }
        { g1.base with rootTop := rt }.rootC2I with
    | error e => rw [h2] at hgc; exact absurd hgc (by simp [res_bind_err])
    | ok g2q =>
      obtain ⟨g2, rc⟩ := g2q
      rw [h2, res_bind_ok] at hgc
      simp only [] at hgc
      cases h3 : copyPtrList { g2 with base := { g2.base with rootC2I := rc } }
          { g2.base with rootC2I := rc }.rootStack.reverse with
      | error e => rw [h3] at hgc; exact absurd hgc (by simp [res_bind_err])
      | ok g3q =>
        obtain ⟨g3, rsRev⟩ := g3q
        rw [h3, res_bind_ok] at hgc
        simp only [] at hgc
        cases h4 : copyPtrList { g3 with base := { g3.base with rootStack := rsRev.reverse } }
            { g3.base with rootStack := rsRev.reverse }.ccc with
        | error e => rw [h4] at hgc; exact absurd hgc (by simp [res_bind_err])
        | ok g4q =>
          obtain ⟨g4, ccc2⟩ := g4q
          rw [h4, res_bind_ok] at hgc
          simp only [] at hgc
          cases h5 : gcDrain f { g4 with base := { g4.base with ccc := ccc2 } } with
          | error e => rw [h5] at hgc; exact absurd hgc (by simp [res_bind_err])
          | ok g5 =>
            rw [h5, res_bind_ok] at hgc
            cases hgc
            have hinv0 : GcInvE ⟨σ, σ.space (!σ.fromSp), 0, []⟩ (fun _ => False) := by
              refine ⟨?_, ?_, List.nodup_nil, ?_, ?_⟩
              · intro i c hc
                obtain ⟨ha, hn⟩ := hCells i c hc
                exact ⟨ha, Or.inl hn⟩
              · intro j hj
                exact absurd hj (List.not_mem_nil j)
              · intro j hj
                exact absurd hj (List.not_mem_nil j)
              · intro j hj _ _
                exact absurd hj (Nat.not_lt_zero j)
            obtain ⟨hinvA, hstepA, hrtA⟩ := copy_inv hinv0 hTop h1
            have hfs1 : g1.base.fromSp = σ.fromSp := hstepA.fromSpEq
            have hrt : dstPtrOk σ.fromSp g1.dnext rt := hrtA
            have hinvB : GcInvE { g1 with base := { g1.base with rootTop := rt } }
                (fun _ => False) :=
              GcInvE_congrBase hinvA { g1.base with rootTop := rt } rfl
                (getCell_withRootTop g1.base rt)
            have hc2i : srcPtrOk { g1.base with rootTop := rt }
                ({ g1.base with rootTop := rt }.rootC2I) := by
              have he : { g1.base with rootTop := rt }.rootC2I = σ.rootC2I := hstepA.rootC2IEq
              rw [he]
              exact srcPtrOk_congr rfl (getCell_withRootTop g1.base rt) (hstepA.srcMono _ hC2I)
            obtain ⟨hinvC, hstepB, hrcB⟩ := copy_inv hinvB hc2i h2
            have hfs2 : g2.base.fromSp = σ.fromSp := hstepB.fromSpEq.trans hfs1
            have hrc : dstPtrOk σ.fromSp g2.dnext rc := by
              have hx : dstPtrOk g1.base.fromSp g2.dnext rc := hrcB
              rw [hfs1] at hx
              exact hx
            have hinvD : GcInvE { g2 with base := { g2.base with rootC2I := rc } }
                (fun _ => False) :=
              GcInvE_congrBase hinvC { g2.base with rootC2I := rc } rfl
                (getCell_withRootC2I g2.base rc)
            have htrans2 : ∀ p, srcPtrOk σ p → srcPtrOk { g2.base with rootC2I := rc } p := by
              intro p hp
              refine srcPtrOk_congr rfl (getCell_withRootC2I g2.base rc) ?_
              refine hstepB.srcMono p ?_
              exact srcPtrOk_congr rfl (getCell_withRootTop g1.base rt) (hstepA.srcMono p hp)
            have hstkeq : { g2.base with rootC2I := rc }.rootStack = σ.rootStack := by
              have e1 : g2.base.rootStack = g1.base.rootStack := hstepB.rootStackEq
              have e2 : g1.base.rootStack = σ.rootStack := hstepA.rootStackEq
              exact e1.trans e2
            have hstkok : ∀ p ∈ { g2.base with rootC2I := rc }.rootStack.reverse,
                srcPtrOk { g2.base with rootC2I := rc } p := by
              intro p hp
              rw [hstkeq] at hp
              exact htrans2 p (hStk p (List.mem_reverse.mp hp))
            obtain ⟨hinvE, hstepC, hrsC⟩ := copyList_inv _ hinvD hstkok h3
            have hfs3 : g3.base.fromSp = σ.fromSp := hstepC.fromSpEq.trans hfs2
            have hrs : ∀ q ∈ rsRev, dstPtrOk σ.fromSp g3.dnext q := by
              intro q hq
              have hx : dstPtrOk g2.base.fromSp g3.dnext q := hrsC q hq
              rw [hfs2] at hx
              exact hx
            have hinvF : GcInvE { g3 with base := { g3.base with rootStack := rsRev.reverse } }
                (fun _ => False) :=
              GcInvE_congrBase hinvE { g3.base with rootStack := rsRev.reverse } rfl
                (getCell_withRootStack g3.base rsRev.reverse)
            have htrans3 : ∀ p, srcPtrOk σ p →
                srcPtrOk { g3.base with rootStack := rsRev.reverse } p := by
              intro p hp
              refine srcPtrOk_congr rfl (getCell_withRootStack g3.base rsRev.reverse) ?_
              exact hstepC.srcMono p (htrans2 p hp)
            have hccceq : { g3.base with rootStack := rsRev.reverse }.ccc = σ.ccc := by
              have e1 : g3.base.ccc = g2.base.ccc := hstepC.cccEq
              have e2 : g2.base.ccc = g1.base.ccc := hstepB.cccEq
              have e3 : g1.base.ccc = σ.ccc := hstepA.cccEq
              exact (e1.trans e2).trans e3
            have hcccok : ∀ p ∈ { g3.base with rootStack := rsRev.reverse }.ccc,
                srcPtrOk { g3.base with rootStack := rsRev.reverse } p := by
              intro p hp
              rw [hccceq] at hp
              exact htrans3 p (hCcc p hp)
            obtain ⟨hinvG, hstepD, hcccD⟩ := copyList_inv _ hinvF hcccok h4
            have hfs4 : g4.base.fromSp = σ.fromSp := hstepD.fromSpEq.trans hfs3
            have hccc : ∀ q ∈ ccc2, dstPtrOk σ.fromSp g4.dnext q := by
              intro q hq
              have hx : dstPtrOk g3.base.fromSp g4.dnext q := hcccD q hq
              rw [hfs3] at hx
              exact hx
            have hinvH : GcInvE { g4 with base := { g4.base with ccc := ccc2 } }
                (fun _ => False) :=
              GcInvE_congrBase hinvG { g4.base with ccc := ccc2 } rfl
                (getCell_withCcc g4.base ccc2)
            obtain ⟨hinvI, hstepE, hw5⟩ := drain_inv f hinvH h5
            have hfs5 : g5.base.fromSp = σ.fromSp := hstepE.fromSpEq.trans hfs4
            have hd1 : g1.dnext ≤ g2.dnext := hstepB.dmono
            have hd2 : g2.dnext ≤ g3.dnext := hstepC.dmono
            have hd3 : g3.dnext ≤ g4.dnext := hstepD.dmono
            have hd4 : g4.dnext ≤ g5.dnext := hstepE.dmono
            have hdle1 : g1.dnext ≤ g5.dnext :=
              Nat.le_trans hd1 (Nat.le_trans hd2 (Nat.le_trans hd3 hd4))
            have hdle2 : g2.dnext ≤ g5.dnext := Nat.le_trans hd2 (Nat.le_trans hd3 hd4)
            have hdle3 : g3.dnext ≤ g5.dnext := Nat.le_trans hd3 hd4
            have hrtv : g5.base.rootTop = rt := by
              have e4 : g5.base.rootTop = g4.base.rootTop := hstepE.rootTopEq
              have e3 : g4.base.rootTop = g3.base.rootTop := hstepD.rootTopEq
              have e2 : g3.base.rootTop = g2.base.rootTop := hstepC.rootTopEq
              have e1 : g2.base.rootTop = rt := hstepB.rootTopEq
              exact ((e4.trans e3).trans e2).trans e1
            have hrcv : g5.base.rootC2I = rc := by
              have e4 : g5.base.rootC2I = g4.base.rootC2I := hstepE.rootC2IEq
              have e3 : g4.base.rootC2I = g3.base.rootC2I := hstepD.rootC2IEq
              have e2 : g3.base.rootC2I = rc := hstepC.rootC2IEq
              exact (e4.trans e3).trans e2
            have hrsv : g5.base.rootStack = rsRev.reverse := by
              have e4 : g5.base.rootStack = g4.base.rootStack := hstepE.rootStackEq
              have e3 : g4.base.rootStack = rsRev.reverse := hstepD.rootStackEq
              exact e4.trans e3
            have hcccv : g5.base.ccc = ccc2 := hstepE.cccEq
            have hFf0 : (State.setSpace
                { g5.base with fromSp := !g5.base.fromSp, nextAlloc := g5.dnext }
                (!g5.base.fromSp) g5.dest).fromSp = !g5.base.fromSp := by
              rw [setSpace_fromSp]
            have hFf : (State.setSpace
                { g5.base with fromSp := !g5.base.fromSp, nextAlloc := g5.dnext }
                (!g5.base.fromSp) g5.dest).fromSp = !σ.fromSp := by
              rw [hFf0, hfs5]
            have hFn : (State.setSpace
                { g5.base with fromSp := !g5.base.fromSp, nextAlloc := g5.dnext }
                (!g5.base.fromSp) g5.dest).nextAlloc = g5.dnext := by
              rw [setSpace_nextAlloc]
            have hmain : ∀ s : State, s.fromSp = !σ.fromSp → s.nextAlloc = g5.dnext →
                s.rootTop = rt → s.rootC2I = rc → s.rootStack = rsRev.reverse →
                s.ccc = ccc2 → s.space s.fromSp = g5.dest → gcPost s = true := by
              intro s hsf hsn hstop hsc2i hsstk hsccc hssp
              refine gcPost_intro s ?_ ?_ ?_ ?_ ?_
              · rw [hstop]
                exact dstPtrOk_to_ptrOkN (dstPtrOk_mono hdle1 hrt) hsf (Nat.le_of_eq hsn.symm)
              · rw [hsc2i]
                exact dstPtrOk_to_ptrOkN (dstPtrOk_mono hdle2 hrc) hsf (Nat.le_of_eq hsn.symm)
              · intro p hp
                rw [hsstk] at hp
                exact dstPtrOk_to_ptrOkN
                  (dstPtrOk_mono hdle3 (hrs p (List.mem_reverse.mp hp))) hsf
                  (Nat.le_of_eq hsn.symm)
              · intro p hp
                rw [hsccc] at hp
                exact dstPtrOk_to_ptrOkN (dstPtrOk_mono hd4 (hccc p hp)) hsf
                  (Nat.le_of_eq hsn.symm)
              · intro i hi c hc
                rw [hsn] at hi
                have hc' : (s.space s.fromSp).get i = some c := hc
                rw [hssp] at hc'
                obtain ⟨c2, hc2, hdst⟩ := hinvI.scanned i hi
                  (by rw [hw5]; exact List.not_mem_nil i) not_false
                cases Option.some.inj (hc2.symm.trans hc')
                refine dstArgsOk_to_cellOkN ?_ hsf (Nat.le_of_eq hsn.symm)
                rw [hfs5] at hdst
                exact hdst
            refine hmain _ hFf hFn ?_ ?_ ?_ ?_ ?_
            · rw [setSpace_rootTop]
              exact hrtv
            · rw [setSpace_rootC2I]
              exact hrcv
            · rw [setSpace_rootStack]
              exact hrsv
            · rw [setSpace_ccc]
              exact hcccv
            · rw [hFf0]
              exact space_setSpace_self ..

set_option maxRecDepth 40000 in
theorem c5_gc_safety_witness : gcPost c5cex = true := by
  refine c5_gc_safety 5 blankState c5cex ?_ ?_ ?_ ?_ ?_ (by decide)
  · exact Or.inl rfl
  · exact Or.inl rfl
  · intro p hp
    exact absurd hp (List.not_mem_nil p)
  · intro p hp
    rcases List.mem_cons.mp hp with h | hp
    · subst h
      exact Or.inr (Or.inl ⟨.KI, rfl⟩)
    rcases List.mem_cons.mp hp with h | hp
    · subst h
      exact Or.inr (Or.inl ⟨.cI, rfl⟩)
    · have hn : p = .null := List.eq_of_mem_replicate hp
      exact Or.inl hn
  · intro i c hc
    have hc' : HTree.leaf.get i = some c := hc
    rw [HTree.get_leaf] at hc'
    exact absurd hc' (by simp)

/-! ## C8: the Church-numeral round trip -/

/-- The shape of a Church-character-cache entry: `KI` for 0, `I` for 1, and
an `S2(SKSK, previous)` heap cell (at an arena index below `B`) for each
larger value, as built by `make_church_char`. -/
def chainAt (σ : State) (B : Nat) : Ptr → Nat → Prop
  | p, 0 => p = .atom .KI
  | p, 1 => p = .atom .cI
  | p, n+2 => ∃ j c', p = .heap σ.fromSp j ∧ j < B ∧
      (∃ fw, getCell σ p = some ⟨fw, .ptr (.atom .SKSK), c', .S2⟩) ∧
      chainAt σ B c' (n+1)

theorem chainAt_mono : ∀ (n : Nat) {σ σ2 : State} {B : Nat} {c : Ptr},
    chainAt σ B c n → σ2.fromSp = σ.fromSp →
    (∀ j, j < B → getCell σ2 (.heap σ.fromSp j) = getCell σ (.heap σ.fromSp j)) →
    chainAt σ2 B c n := by
  intro n
  induction n using Nat.strong_induction_on with
  | _ n IH =>
    rcases n with _ | n1
    · intro σ σ2 B c hch hf hg
      exact hch
    rcases n1 with _ | m
    · intro σ σ2 B c hch hf hg
      exact hch
    · intro σ σ2 B c hch hf hg
      rw [chainAt] at hch ⊢
      obtain ⟨j, c', hp, hj, ⟨fw, hcell⟩, htail⟩ := hch
      refine ⟨j, c', ?_, hj, ⟨fw, ?_⟩, ?_⟩
      · rw [hf]
        exact hp
      · rw [hp] at hcell ⊢
        rw [hg j hj]
        exact hcell
      · exact IH (m+1) (by omega) htail hf hg

theorem check_id {f n : Nat} {σ : State} (hx : is_exhausted σ n = false) :
    check f n σ = .ok σ := by
  rw [check, if_neg (by simp [hx])]

theorem check_rooted_id (f n : Nat) (σ : State) (e1 e2 : Ptr)
    (hx : is_exhausted σ n = false) :
    check_rooted f n σ e1 e2 = .ok (σ, e1, e2) := by
  rw [check_rooted, if_neg (by simp [hx])]

theorem getCell_root (σ : State) (e p : Ptr) : getCell (root σ e) p = getCell σ p := by
  rw [root]
  exact getCell_withRootStack ..

theorem frame_setCell {σ : State} {o : Bool} {w j : Nat} (c : Cell) (h : j ≠ w) :
    getCell (setCell σ (.heap o w) c) (.heap o j) = getCell σ (.heap o j) :=
  getCell_setCell_ne_idx c (Or.inr (fun hc => h hc.symm))

theorem spineWalk_zero_A {σ : State} {prev cur a : Ptr} {c : Cell}
    (hc : getCell σ cur = some c) (hA : c.tag = .A) (ha : c.arg1 = .ptr a) :
    spineWalk 0 σ prev cur = .error .noFuel := by
  rw [spineWalk, hc]
  simp only []
  rw [if_pos hA, ha]

theorem spineWalk_step (f : Nat) {σ σ1 : State} {prev cur a nxt : Ptr} {c c2 : Cell}
    (hc : getCell σ cur = some c) (hA : c.tag = .A) (ha : c.arg1 = .ptr a)
    (hd : drop_i1 f σ a = .ok (σ1, nxt)) (hc2 : getCell σ1 cur = some c2) :
    spineWalk (f+1) σ prev cur =
      spineWalk f (setCell σ1 cur { c2 with arg1 := .ptr prev }) cur nxt := by
  rw [spineWalk, hc]
  simp only []
  rw [if_pos hA, ha]
  simp only []
  rw [hd, res_bind_ok]
  simp only []
  rw [hc2]

theorem wrap32_small {m : Int} (h0 : 0 ≤ m) (h1 : m < 2147483648) : wrap32 m = m := by
  rw [wrap32]
  omega

theorem getCell_allocCell_stable {σ : State} {c : Cell} {p : Ptr}
    (h : ∀ j, p = .heap σ.fromSp j → j < σ.nextAlloc) :
    getCell (allocCell σ c).1 p = getCell σ p := by
  match p with
  | .null => rfl
  | .atom a => rfl
  | .heap sp j =>
    by_cases hsp : sp = σ.fromSp
    · subst hsp
      exact getCell_allocCell_old (Or.inl (h j rfl))
    · exact getCell_allocCell_old (Or.inr hsp)

theorem getCell_setCell_stable {σ : State} {o : Bool} {w : Nat} {cw : Cell} {p : Ptr}
    (h : ∀ j, p = .heap o j → j ≠ w) :
    getCell (setCell σ (.heap o w) cw) p = getCell σ p := by
  match p with
  | .null => rfl
  | .atom a => rfl
  | .heap sp j =>
    by_cases hsp : sp = o
    · subst hsp
      exact frame_setCell cw (h j rfl)
    · exact getCell_setCell_ne_idx cw (Or.inl (fun hc => hsp hc.symm))

theorem pevalPrimS2_spec (f : Nat) (σ : State) (i0 : Nat) (prev lhs x : Ptr)
    (ce cl : Cell)
    (hex : is_exhausted σ 2 = false)
    (hce : getCell σ (.heap σ.fromSp i0) = some ce)
    (harg : ce.arg1 = .ptr lhs)
    (hcl : getCell σ lhs = some cl)
    (hclarg : cl.arg1 = .ptr x)
    (hlhsf : ∀ j, lhs = .heap σ.fromSp j → j < σ.nextAlloc ∧ j ≠ i0)
    (hi0 : i0 < σ.nextAlloc) :
    ∃ σF, pevalPrimS2 f σ (.heap σ.fromSp i0) prev = .ok (σF, .heap σ.fromSp i0, prev) ∧
      σF.fromSp = σ.fromSp ∧ σF.nextAlloc = σ.nextAlloc + 2 ∧
      σF.rootStack = σ.rootStack ∧
      getCell σF (.heap σ.fromSp i0) =
        some ⟨ce.forward, .ptr (.heap σ.fromSp σ.nextAlloc),
              .heap σ.fromSp (σ.nextAlloc + 1), ce.tag⟩ ∧
      getCell σF (.heap σ.fromSp σ.nextAlloc) = some ⟨none, .ptr x, ce.arg2, .A⟩ ∧
      getCell σF (.heap σ.fromSp (σ.nextAlloc + 1)) =
        some ⟨none, .ptr cl.arg2, ce.arg2, .A⟩ ∧
      (∀ j, j < σ.nextAlloc → j ≠ i0 →
        getCell σF (.heap σ.fromSp j) = getCell σ (.heap σ.fromSp j)) := by
  obtain ⟨σ1, p1, hA1⟩ : ∃ s q, allocCell σ ⟨none, .ptr x, ce.arg2, .A⟩ = (s, q) :=
    ⟨_, _, rfl⟩
  have hfst1 : (allocCell σ ⟨none, .ptr x, ce.arg2, .A⟩).1 = σ1 := by rw [hA1]
  have hp1 : p1 = .heap σ.fromSp σ.nextAlloc := by
    have h2 := allocCell_snd σ ⟨none, .ptr x, ce.arg2, .A⟩
    rw [hA1] at h2
    exact h2
  have hfs1 : σ1.fromSp = σ.fromSp := by
    rw [← hfst1]
    exact allocCell_fromSp ..
  have hna1 : σ1.nextAlloc = σ.nextAlloc + 1 := by
    rw [← hfst1]
    exact allocCell_nextAlloc ..
  have hrs1 : σ1.rootStack = σ.rootStack := by
    rw [← hfst1]
    exact allocCell_rootStack ..
  have hg1e : getCell σ1 (.heap σ.fromSp i0) = some ce := by
    rw [← hfst1, getCell_allocCell_stable]
    · exact hce
    · intro j hj
      cases hj
      exact hi0
  have hg1lhs : getCell σ1 lhs = some cl := by
    rw [← hfst1, getCell_allocCell_stable]
    · exact hcl
    · intro j hj
      exact (hlhsf j hj).1
  have hg1p1 : getCell σ1 p1 = some ⟨none, .ptr x, ce.arg2, .A⟩ := by
    rw [hp1, ← hfst1]
    exact getCell_allocCell_self ..
  have hfr1 : ∀ j, j < σ.nextAlloc →
      getCell σ1 (.heap σ.fromSp j) = getCell σ (.heap σ.fromSp j) := by
    intro j hj
    rw [← hfst1, getCell_allocCell_stable]
    intro j' hj'
    cases hj'
    exact hj
  obtain ⟨σ1x, hS1⟩ : ∃ s, setCell σ1 (.heap σ.fromSp i0) { ce with arg1 := .ptr p1 } = s :=
    ⟨_, rfl⟩
  have hfsx : σ1x.fromSp = σ.fromSp := by
    rw [← hS1, setCell_fromSp]
    exact hfs1
  have hnax : σ1x.nextAlloc = σ.nextAlloc + 1 := by
    rw [← hS1, setCell_nextAlloc]
    exact hna1
  have hrsx : σ1x.rootStack = σ.rootStack := by
    rw [← hS1, setCell_rootStack]
    exact hrs1
  have hgxe : getCell σ1x (.heap σ.fromSp i0) = some { ce with arg1 := .ptr p1 } := by
    rw [← hS1]
    exact getCell_setCell_self ..
  have hgxlhs : getCell σ1x lhs = some cl := by
    rw [← hS1, getCell_setCell_stable]
    · exact hg1lhs
    · intro j hj
      exact (hlhsf j hj).2
  have hgxp1 : getCell σ1x p1 = some ⟨none, .ptr x, ce.arg2, .A⟩ := by
    rw [← hS1, getCell_setCell_stable]
    · exact hg1p1
    · intro j hj
      rw [hp1] at hj
      cases hj
      omega
  have hfrx : ∀ j, j < σ.nextAlloc → j ≠ i0 →
      getCell σ1x (.heap σ.fromSp j) = getCell σ (.heap σ.fromSp j) := by
    intro j hj hji
    rw [← hS1, getCell_setCell_stable]
    · exact hfr1 j hj
    · intro j' hj'
      cases hj'
      exact hji
  obtain ⟨σ2, p2, hA2⟩ : ∃ s q, allocCell σ1x ⟨none, .ptr cl.arg2, ce.arg2, .A⟩ = (s, q) :=
    ⟨_, _, rfl⟩
  have hfst2 : (allocCell σ1x ⟨none, .ptr cl.arg2, ce.arg2, .A⟩).1 = σ2 := by rw [hA2]
  have hp2 : p2 = .heap σ.fromSp (σ.nextAlloc + 1) := by
    have h2 := allocCell_snd σ1x ⟨none, .ptr cl.arg2, ce.arg2, .A⟩
    rw [hA2] at h2
    rw [hfsx, hnax] at h2
    exact h2
  have hfs2 : σ2.fromSp = σ.fromSp := by
    rw [← hfst2]
    rw [allocCell_fromSp]
    exact hfsx
  have hna2 : σ2.nextAlloc = σ.nextAlloc + 2 := by
    rw [← hfst2, allocCell_nextAlloc, hnax]
  have hrs2 : σ2.rootStack = σ.rootStack := by
    rw [← hfst2, allocCell_rootStack]
    exact hrsx
  have hstable2 : ∀ p : Ptr, (∀ j, p = .heap σ.fromSp j → j < σ.nextAlloc + 1) →
      getCell σ2 p = getCell σ1x p := by
    intro p hp
    rw [← hfst2, getCell_allocCell_stable]
    intro j hj
    rw [hfsx] at hj
    rw [hnax]
    exact hp j hj
  have hg2e : getCell σ2 (.heap σ.fromSp i0) = some { ce with arg1 := .ptr p1 } := by
    rw [hstable2]
    · exact hgxe
    · intro j hj
      cases hj
      omega
  have hg2p1 : getCell σ2 p1 = some ⟨none, .ptr x, ce.arg2, .A⟩ := by
    rw [hstable2]
    · exact hgxp1
    · intro j hj
      rw [hp1] at hj
      cases hj
      omega
  have hg2p2 : getCell σ2 p2 = some ⟨none, .ptr cl.arg2, ce.arg2, .A⟩ := by
    rw [hp2]
    have hself := getCell_allocCell_self σ1x ⟨none, .ptr cl.arg2, ce.arg2, .A⟩
    rw [hfst2, hfsx, hnax] at hself
    exact hself
  have hfr2 : ∀ j, j < σ.nextAlloc → j ≠ i0 →
      getCell σ2 (.heap σ.fromSp j) = getCell σ (.heap σ.fromSp j) := by
    intro j hj hji
    rw [hstable2]
    · exact hfrx j hj hji
    · intro j' hj'
      cases hj'
      omega
  obtain ⟨σF, hSF⟩ : ∃ s,
      setCell σ2 (.heap σ.fromSp i0) ⟨ce.forward, .ptr p1, p2, ce.tag⟩ = s := ⟨_, rfl⟩
  refine ⟨σF, ?_, ?_, ?_, ?_, ?_, ?_, ?_, ?_⟩
  · rw [pevalPrimS2, check_rooted_id _ _ _ _ _ hex, res_bind_ok]
    simp only []
    rw [hce]
    simp only []
    rw [harg]
    simp only []
    rw [hcl]
    simp only []
    rw [hclarg]
    simp only [argPtr]
    rw [res_bind_ok, hA1]
    simp only []
    rw [hg1e]
    simp only []
    rw [hS1, hgxlhs]
    simp only []
    rw [hA2]
    simp only []
    rw [hg2e]
    simp only []
    rw [← hSF]
  · rw [← hSF, setCell_fromSp]
    exact hfs2
  · rw [← hSF, setCell_nextAlloc]
    exact hna2
  · rw [← hSF, setCell_rootStack]
    exact hrs2
  · rw [← hSF, ← hp1, ← hp2]
    exact getCell_setCell_self ..
  · rw [← hp1, ← hSF, getCell_setCell_stable]
    · exact hg2p1
    · intro j hj
      rw [hp1] at hj
      cases hj
      omega
  · rw [← hp2, ← hSF, getCell_setCell_stable]
    · exact hg2p2
    · intro j hj
      rw [hp2] at hj
      cases hj
      omega
  · intro j hj hji
    rw [← hSF, getCell_setCell_stable]
    · exact hfr2 j hj hji
    · intro j' hj'
      cases hj'
      exact hji

theorem is_exhausted_false {σ : State} {n : Nat} (h : σ.nextAlloc + n < heapCapacity) :
    is_exhausted σ n = false := by
  simp [is_exhausted]
  omega

theorem pevalPrimS2_specO (f : Nat) (σ : State) (o : Bool) (na i0 : Nat)
    (prev lhs x : Ptr) (ce cl : Cell)
    (ho : σ.fromSp = o) (hna : σ.nextAlloc = na)
    (hex : is_exhausted σ 2 = false)
    (hce : getCell σ (.heap o i0) = some ce)
    (harg : ce.arg1 = .ptr lhs)
    (hcl : getCell σ lhs = some cl)
    (hclarg : cl.arg1 = .ptr x)
    (hlhsf : ∀ j, lhs = .heap o j → j < na ∧ j ≠ i0)
    (hi0 : i0 < na) :
    ∃ σF, pevalPrimS2 f σ (.heap o i0) prev = .ok (σF, .heap o i0, prev) ∧
      σF.fromSp = o ∧ σF.nextAlloc = na + 2 ∧
      σF.rootStack = σ.rootStack ∧
      getCell σF (.heap o i0) =
        some ⟨ce.forward, .ptr (.heap o na), .heap o (na + 1), ce.tag⟩ ∧
      getCell σF (.heap o na) = some ⟨none, .ptr x, ce.arg2, .A⟩ ∧
      getCell σF (.heap o (na + 1)) = some ⟨none, .ptr cl.arg2, ce.arg2, .A⟩ ∧
      (∀ j, j < na → j ≠ i0 →
        getCell σF (.heap o j) = getCell σ (.heap o j)) := by
  subst ho
  subst hna
  obtain ⟨σF, heq, hfs, hn, hrs, h1, h2, h3, h4⟩ :=
    pevalPrimS2_spec f σ i0 prev lhs x ce cl hex hce harg hcl hclarg hlhsf hi0
  exact ⟨σF, heq, hfs, hn, hrs, h1, h2, h3, h4⟩

end LazyK
